import Mathlib

/-!
Verification of the 4x4x4 three-dimensional four-in-a-row move engine
(src/main.py, class MyAI).  The board is a 4x4x4 grid of integer cell
values indexed board[z][y][x]; the engine decides a column (x, y) to drop
a piece into.  Python's mutate-and-restore discipline is modelled by
explicit state passing: every function that mutates the board returns the
resulting board alongside its value.  Wall-clock time checks are modelled
by boolean oracles (a Timing record), quantified over in the theorems.
-/

/-- Board indexed as in the source: value at [z][y][x] is b z y x. -/
def Board : Type := Fin 4 → Fin 4 → Fin 4 → Int

/-- Read of board[z][y][x] for natural indices; 0 out of range (reads in the
source are always guarded by range checks, so the default is never hit). -/
def cellN (b : Board) (z y x : Nat) : Int :=
  if h : z < 4 ∧ y < 4 ∧ x < 4 then b ⟨z, h.1⟩ ⟨y, h.2.1⟩ ⟨x, h.2.2⟩ else 0

/-- Read of board[z][y][x] for integer indices (Python ints). -/
def cellI (b : Board) (z y x : Int) : Int :=
  if 0 ≤ z ∧ 0 ≤ y ∧ 0 ≤ x then cellN b z.toNat y.toNat x.toNat else 0

/-- Assignment board[z][y][x] = v.  Out-of-range coordinates leave the board
unchanged (the source only ever writes at a computed drop position). -/
def setCellN (b : Board) (z y x : Nat) (v : Int) : Board :=
  fun zi yi xi => if zi.val = z ∧ yi.val = y ∧ xi.val = x then v else b zi yi xi

/-- MyAI.get_drop_position: None for out-of-range x or y, otherwise the
lowest z in range(4) whose cell is 0, None if the column is full. -/
def get_drop_position (b : Board) (x y : Int) : Option Nat :=
  if 0 ≤ x ∧ x < 4 ∧ 0 ≤ y ∧ y < 4 then
    (List.range 4).find? fun z => cellI b (z : Int) y x == 0
  else none

abbrev Cell := Nat × Nat × Nat

abbrev Line := List Cell

/-- Read of the board at a line cell (x, y, z), wrapper of board[z][y][x]. -/
def cellAt (b : Board) (c : Cell) : Int := cellN b c.2.2 c.2.1 c.1

/-- MyAI.get_all_winning_lines: verticals, x-rows, y-rows, plane diagonals
(XY, XZ, YZ) and the four space diagonals, in source order. -/
def get_all_winning_lines : List Line :=
  (((List.range 4).map fun x => (List.range 4).map fun y =>
      (List.range 4).map fun z => (x, y, z)).flatten)
  ++ (((List.range 4).map fun z => (List.range 4).map fun y =>
      (List.range 4).map fun i => (i, y, z)).flatten)
  ++ (((List.range 4).map fun z => (List.range 4).map fun x =>
      (List.range 4).map fun i => (x, i, z)).flatten)
  ++ (((List.range 4).map fun z =>
      [(List.range 4).map fun i => (i, i, z),
       (List.range 4).map fun i => (i, 3 - i, z)]).flatten)
  ++ (((List.range 4).map fun y =>
      [(List.range 4).map fun i => (i, y, i),
       (List.range 4).map fun i => (i, y, 3 - i)]).flatten)
  ++ (((List.range 4).map fun x =>
      [(List.range 4).map fun i => (x, i, i),
       (List.range 4).map fun i => (x, i, 3 - i)]).flatten)
  ++ [(List.range 4).map fun i => (i, i, i),
      (List.range 4).map fun i => (i, i, 3 - i),
      (List.range 4).map fun i => (i, 3 - i, i),
      (List.range 4).map fun i => (3 - i, i, i)]

/-- Does a line keep its x coordinate constant? (classifier used to state
the 48/24/4 decomposition of the catalog). -/
def constX (l : Line) : Bool :=
  match l with
  | [] => true
  | c :: rest => rest.all fun c' => c'.1 == c.1

/-- Does a line keep its y coordinate constant? -/
def constY (l : Line) : Bool :=
  match l with
  | [] => true
  | c :: rest => rest.all fun c' => c'.2.1 == c.2.1

/-- Does a line keep its z coordinate constant? -/
def constZ (l : Line) : Bool :=
  match l with
  | [] => true
  | c :: rest => rest.all fun c' => c'.2.2 == c.2.2

/-- Number of coordinates a line keeps constant: 2 for axis-aligned lines,
1 for planar diagonals, 0 for space diagonals. -/
def numConst (l : Line) : Nat :=
  (if constX l then 1 else 0) + (if constY l then 1 else 0) +
    (if constZ l then 1 else 0)

/-- C5: get_all_winning_lines returns exactly 76 lines, each made of 4
distinct in-range coordinates, no two lines sharing a coordinate set,
decomposing as 16 x-axis + 16 y-axis + 16 z-axis lines, 24 planar
diagonals and 4 space diagonals. -/
theorem claim_C5 :
    get_all_winning_lines.length = 76 ∧
    (∀ l ∈ get_all_winning_lines,
      l.length = 4 ∧ l.Nodup ∧ ∀ c ∈ l, c.1 < 4 ∧ c.2.1 < 4 ∧ c.2.2 < 4) ∧
    List.Pairwise (fun l1 l2 => l1.toFinset ≠ l2.toFinset)
      get_all_winning_lines ∧
    (get_all_winning_lines.filter fun l => constY l && constZ l).length = 16 ∧
    (get_all_winning_lines.filter fun l => constX l && constZ l).length = 16 ∧
    (get_all_winning_lines.filter fun l => constX l && constY l).length = 16 ∧
    (get_all_winning_lines.filter fun l => numConst l == 1).length = 24 ∧
    (get_all_winning_lines.filter fun l => numConst l == 0).length = 4 := by
  decide

abbrev Dir := Int × Int × Int

/-- Direction pairs scanned by MyAI.check_win_fast, in source order. -/
def dirPairs : List (Dir × Dir) :=
  [((1,0,0), (-1,0,0)),
   ((0,1,0), (0,-1,0)),
   ((0,0,1), (0,0,-1)),
   ((1,1,0), (-1,-1,0)),
   ((1,-1,0), (-1,1,0)),
   ((1,0,1), (-1,0,-1)),
   ((1,0,-1), (-1,0,1)),
   ((0,1,1), (0,-1,-1)),
   ((0,1,-1), (0,-1,1)),
   ((1,1,1), (-1,-1,-1)),
   ((1,1,-1), (-1,-1,1)),
   ((1,-1,1), (-1,1,-1)),
   ((1,-1,-1), (-1,1,1))]

/-- One walking loop of check_win_fast: starting at probe cell (x, y, z),
count consecutive in-range cells equal to the player while stepping by
(dx, dy, dz).  Fuel 4 is exact: along any nonzero direction of the source's
lists a run inside the 4x4x4 cube never exceeds 4 cells, so the bounded
recursion agrees with the source's while loop. -/
def runAux : Nat → Board → Int → Int → Int → Int → Int → Int → Int → Nat
  | 0, _, _, _, _, _, _, _, _ => 0
  | n + 1, b, p, x, y, z, dx, dy, dz =>
    if 0 ≤ x ∧ x < 4 ∧ 0 ≤ y ∧ y < 4 ∧ 0 ≤ z ∧ z < 4 ∧ cellI b z y x = p
    then 1 + runAux n b p (x + dx) (y + dy) (z + dz) dx dy dz
    else 0

/-- Run length starting from the first probed neighbour of (x, y, z). -/
def runFrom (b : Board) (p : Int) (x y z : Int) (d : Dir) : Nat :=
  runAux 4 b p (x + d.1) (y + d.2.1) (z + d.2.2) d.1 d.2.1 d.2.2

/-- Count of a direction pair: piece at (x, y, z) plus both runs. -/
def pairCount (b : Board) (p : Int) (x y z : Int) (pr : Dir × Dir) : Nat :=
  1 + runFrom b p x y z pr.1 + runFrom b p x y z pr.2

/-- MyAI.check_win_fast: does some direction pair through (x, y, z) reach
a count of at least 4? -/
def check_win_fast (b : Board) (p : Int) (x y z : Int) : Bool :=
  dirPairs.any fun pr => decide (4 ≤ pairCount b p x y z pr)

/-- All 16 columns in x-major order, matching the source's nested
"for x in range(4): for y in range(4)" loops. -/
def allCols : List (Nat × Nat) :=
  [(0,0),(0,1),(0,2),(0,3),
   (1,0),(1,1),(1,2),(1,3),
   (2,0),(2,1),(2,2),(2,3),
   (3,0),(3,1),(3,2),(3,3)]

/-- Loop body of MyAI.find_immediate_win: drop, place, test, restore. -/
def fiwAux (p : Int) : List (Nat × Nat) → Board → Option (Nat × Nat) × Board
  | [], b => (none, b)
  | m :: rest, b =>
    match get_drop_position b (m.1 : Int) (m.2 : Int) with
    | none => fiwAux p rest b
    | some z =>
      let b1 := setCellN b z m.2 m.1 p
      if check_win_fast b1 p (m.1 : Int) (m.2 : Int) (z : Int)
      then (some m, setCellN b1 z m.2 m.1 0)
      else fiwAux p rest (setCellN b1 z m.2 m.1 0)

/-- MyAI.find_immediate_win. -/
def find_immediate_win (b : Board) (p : Int) : Option (Nat × Nat) × Board :=
  fiwAux p allCols b

/-- All 64 cell coordinates (x, y, z), x-major as in the source loops. -/
def allCellCoords : List Cell :=
  (((List.range 4).map fun x => (List.range 4).map fun y =>
      (List.range 4).map fun z => (x, y, z)).flatten).flatten

/-- Number of occupied cells, as counted by is_early_game and
get_opening_move. -/
def moveCount (b : Board) : Nat :=
  (allCellCoords.filter fun c => cellAt b c != 0).length

/-- MyAI.is_early_game: at most 4 pieces on the board. -/
def is_early_game (b : Board) : Bool := moveCount b ≤ 4

/-- MyAI.get_opening_move. -/
def get_opening_move (b : Board) (p : Int) : Option (Nat × Nat) :=
  let mc := moveCount b
  if mc = 0 ∧ p = 1 then some (1, 1)
  else if mc = 1 ∧ p = 2 then
    if cellN b 0 1 1 = 1 then some (2, 2) else none
  else if mc = 2 ∧ p = 1 then
    [(1,2),(2,1),(2,2)].find? fun m =>
      (get_drop_position b (m.1 : Int) (m.2 : Int)).isSome
  else none

/-- MyAI.is_position_playable: the expected drop height equals z. -/
def is_position_playable (b : Board) (pos : Cell) : Bool :=
  get_drop_position b (pos.1 : Int) (pos.2.1 : Int) == some pos.2.2

/-- MyAI.has_horizontal_potential: the walking loops are the same
bounds-and-player walks as in check_win_fast (the loop breaks on any
non-player cell), so they are the same runs. -/
def has_horizontal_potential (b : Board) (x y z : Nat) (p : Int) : Bool :=
  [(((0:Int),(1:Int),(0:Int)), ((0:Int),(-1:Int),(0:Int))),
   ((1,0,0), (-1,0,0))].any fun pr =>
    decide (2 ≤ pairCount b p (x : Int) (y : Int) (z : Int) pr)

/-- MyAI.is_diagonal_line: at least two axes change between the first two
cells (differences taken over the integers, as in Python). -/
def is_diagonal_line (line : Line) : Bool :=
  if line.length = 4 then
    match line with
    | c0 :: c1 :: _ =>
      let xd : Int := (c1.1 : Int) - c0.1
      let yd : Int := (c1.2.1 : Int) - c0.2.1
      let zd : Int := (c1.2.2 : Int) - c0.2.2
      decide (2 ≤ ((if xd ≠ 0 then 1 else 0) + (if yd ≠ 0 then 1 else 0)
        + (if zd ≠ 0 then 1 else 0) : Nat))
    | _ => false
  else false

/-- MyAI.detect_figure_7_pattern. -/
def detect_figure_7_pattern (b : Board) (line : Line) (p : Int) : Bool :=
  if line.length = 4 then
    if is_diagonal_line line then
      let ourCells := line.filter fun c => cellAt b c == p
      decide (2 ≤ ourCells.length) &&
        ourCells.any fun c => has_horizontal_potential b c.1 c.2.1 c.2.2 p
    else false
  else false

structure LineAnalysis where
  immediate_threat : Bool
  potential_threat : Bool
  blocking_needed : Bool
  figure_7_setup : Bool

/-- All-false analysis, returned for blocked or out-of-range lines. -/
def lineAnalysisFalse : LineAnalysis := ⟨false, false, false, false⟩

/-- MyAI.analyze_line_threats.  The source classifies each cell by an
if/elif chain (player / opponent / otherwise "empty") and bails out with
the all-false dict on an out-of-range coordinate or a blocked line. -/
def analyze_line_threats (b : Board) (line : Line) (p o : Int) :
    LineAnalysis :=
  if line.all fun c => decide (c.1 < 4 ∧ c.2.1 < 4 ∧ c.2.2 < 4) then
    let our := (line.filter fun c => cellAt b c == p).length
    let their :=
      (line.filter fun c => cellAt b c != p && cellAt b c == o).length
    let empties := line.filter fun c => cellAt b c != p && cellAt b c != o
    if 0 < our ∧ 0 < their then lineAnalysisFalse
    else
      { immediate_threat := our == 3 && (match empties with
          | [e] => is_position_playable b e
          | _ => false),
        potential_threat := our == 2 && empties.length == 2 &&
          empties.any fun e => is_position_playable b e,
        blocking_needed := their == 3 && (match empties with
          | [e] => is_position_playable b e
          | _ => false),
        figure_7_setup := detect_figure_7_pattern b line p }
  else lineAnalysisFalse

/-- Central columns, in the order used by the source. -/
def centerMoves : List (Nat × Nat) := [(1,1),(1,2),(2,1),(2,2)]

/-- MyAI.evaluate_center_control. -/
def evaluate_center_control (b : Board) (p : Int) : Int :=
  (centerMoves.map fun m =>
    ((List.range 4).map fun z =>
      if cellN b z m.2 m.1 = p then ((z : Int) + 1) * 2
      else if cellN b z m.2 m.1 = 3 - p then -(((z : Int) + 1) * 2)
      else 0).sum).sum

/-- MyAI.analyze_threat_space: fold over all winning lines accumulating
the score and the number of immediate threats. -/
def analyze_threat_space (b : Board) (p : Int) : Int :=
  let o := 3 - p
  let acc := get_all_winning_lines.foldl (fun (acc : Int × Nat) line =>
    let la := analyze_line_threats b line p o
    let acc1 : Int × Nat :=
      if la.immediate_threat then (acc.1 + 10000, acc.2 + 1)
      else if la.potential_threat then (acc.1 + 1000, acc.2)
      else if la.blocking_needed then (acc.1 - 500, acc.2)
      else acc
    if la.figure_7_setup then (acc1.1 + 2000, acc1.2) else acc1) (0, 0)
  let score := if 2 ≤ acc.2 then acc.1 + 5000 else acc.1
  score + evaluate_center_control b p * 10

/-- Loop of MyAI.find_double_threat_move: simulate each legal drop and
keep the strictly best threat score. -/
def fdtAux (p : Int) :
    List (Nat × Nat) → Board → Option (Nat × Nat) → Int →
      Option (Nat × Nat) × Int × Board
  | [], b, best, mx => (best, mx, b)
  | m :: rest, b, best, mx =>
    match get_drop_position b (m.1 : Int) (m.2 : Int) with
    | none => fdtAux p rest b best mx
    | some z =>
      let b1 := setCellN b z m.2 m.1 p
      let ts := analyze_threat_space b1 p
      let b2 := setCellN b1 z m.2 m.1 0
      if mx < ts then fdtAux p rest b2 (some m) ts
      else fdtAux p rest b2 best mx

/-- MyAI.find_double_threat_move.  The entry time check is modelled as a
boolean oracle; the move is only returned when the best score reaches the
2000 threshold. -/
def find_double_threat_move (b : Board) (p : Int) (timeExceeded : Bool) :
    Option (Nat × Nat) × Board :=
  if timeExceeded then (none, b)
  else
    let r := fdtAux p allCols b none 0
    (if 2000 ≤ r.2.1 then r.1 else none, r.2.2)

/-- MyAI.get_ordered_moves: legal central columns first, then the other
legal columns in x-major scan order. -/
def get_ordered_moves (b : Board) : List (Nat × Nat) :=
  (centerMoves.filter fun m =>
    (get_drop_position b (m.1 : Int) (m.2 : Int)).isSome)
  ++ allCols.filter fun m =>
    decide (m ∉ centerMoves) &&
      (get_drop_position b (m.1 : Int) (m.2 : Int)).isSome

/-- MyAI.evaluate_position_control.  The source computes
(3 - (abs(x - 1.5) + abs(y - 1.5))) * 50 in floats; for x, y in range(4)
these are exact halves, and the value equals
(6 - (abs(2x - 3) + abs(2y - 3))) * 25 over the integers. -/
def evaluate_position_control (b : Board) (x y z : Nat) (p : Int) : Int :=
  let cd2 : Int := |2 * (x : Int) - 3| + |2 * (y : Int) - 3|
  (6 - cd2) * 25 + (z : Int) * 20 +
    ((get_all_winning_lines.filter fun l =>
      decide ((x, y, z) ∈ l)).length : Int) * 30

/-- The 26 neighbour directions of MyAI.calculate_connectivity. -/
def dirs26 : List Dir :=
  [(1,0,0), (-1,0,0), (0,1,0), (0,-1,0), (0,0,1), (0,0,-1),
   (1,1,0), (-1,-1,0), (1,-1,0), (-1,1,0),
   (1,0,1), (-1,0,-1), (1,0,-1), (-1,0,1),
   (0,1,1), (0,-1,-1), (0,1,-1), (0,-1,1),
   (1,1,1), (-1,-1,-1), (1,1,-1), (-1,-1,1),
   (1,-1,1), (-1,1,-1), (1,-1,-1), (-1,1,1)]

/-- MyAI.calculate_connectivity. -/
def calculate_connectivity (b : Board) (x y z : Nat) (p : Int) : Nat :=
  (dirs26.filter fun d =>
    let nx := (x : Int) + d.1
    let ny := (y : Int) + d.2.1
    let nz := (z : Int) + d.2.2
    decide (0 ≤ nx ∧ nx < 4 ∧ 0 ≤ ny ∧ ny < 4 ∧ 0 ≤ nz ∧ nz < 4 ∧
      cellI b nz ny nx = p)).length

/-- MyAI.calculate_blocking_value: place the opponent's piece, score the
opponent's threats, restore.  Python's floor division // is Int.fdiv. -/
def calculate_blocking_value (b : Board) (x y z : Nat) (o : Int) :
    Int × Board :=
  let b1 := setCellN b z y x o
  let t := analyze_threat_space b1 o
  let b2 := setCellN b1 z y x 0
  (min (Int.fdiv t 100) 50, b2)

/-- MyAI.calculate_future_potential. -/
def calculate_future_potential (b : Board) (x y z : Nat) (p : Int) : Int :=
  get_all_winning_lines.foldl (fun acc line =>
    if (x, y, z) ∈ line then
      let our := (line.filter fun c => cellAt b c == p).length
      let empt := (line.filter fun c => cellAt b c == 0).length
      if our = 1 ∧ empt = 3 then acc + 10
      else if our = 2 ∧ empt = 2 then acc + 25
      else acc
    else acc) 0

/-- MyAI.evaluate_strategic_value.  Note that calculate_blocking_value
temporarily clears the cell, so calculate_future_potential runs on the
board with (x, y, z) cleared, exactly as in the source. -/
def evaluate_strategic_value (b : Board) (x y z : Nat) (p : Int) :
    Int × Board :=
  let conn := calculate_connectivity b x y z p
  let bv := calculate_blocking_value b x y z (3 - p)
  let fut := calculate_future_potential bv.2 x y z p
  ((conn : Int) * 25 + bv.1 * 40 + fut * 15, bv.2)

/-- MyAI.evaluate_move_advanced: place the piece, score, restore.  All
float quantities in the source are exact integers (see
evaluate_position_control), so the score is modelled in Int. -/
def evaluate_move_advanced (b : Board) (x y z : Nat) (p : Int) :
    Int × Board :=
  let b1 := setCellN b z y x p
  let threat := analyze_threat_space b1 p
  let posc := evaluate_position_control b1 x y z p
  let sv := evaluate_strategic_value b1 x y z p
  (threat + posc + sv.1, setCellN sv.2 z y x 0)

/-- Loop of MyAI.advanced_move_search.  The per-iteration time check is a
boolean oracle indexed by the iteration counter; best_score starts at
-inf, so the first evaluated move always becomes the best. -/
def amsAux (p : Int) (tl : Nat → Bool) :
    List (Nat × Nat) → Nat → Board → Option (Int × (Nat × Nat)) →
      Option (Nat × Nat) × Board
  | [], _, b, best => (best.map fun s => s.2, b)
  | m :: rest, i, b, best =>
    if tl i then (best.map fun s => s.2, b)
    else
      match get_drop_position b (m.1 : Int) (m.2 : Int) with
      | none => amsAux p tl rest (i + 1) b best
      | some z =>
        let ev := evaluate_move_advanced b m.1 m.2 z p
        match best with
        | none => amsAux p tl rest (i + 1) ev.2 (some (ev.1, m))
        | some s =>
          if s.1 < ev.1 then amsAux p tl rest (i + 1) ev.2 (some (ev.1, m))
          else amsAux p tl rest (i + 1) ev.2 (some s)

/-- Priority list of MyAI.strategic_fallback. -/
def priorityMoves : List (Nat × Nat) :=
  [(1,1),(2,2),(1,2),(2,1),
   (0,1),(1,0),(3,2),(2,3),
   (0,0),(3,3),(0,3),(3,0)]

/-- MyAI.strategic_fallback: first legal priority column, else the first
legal column in scan order, else (0, 0). -/
def strategic_fallback (b : Board) : Nat × Nat :=
  match priorityMoves.find? fun m =>
      (get_drop_position b (m.1 : Int) (m.2 : Int)).isSome with
  | some m => m
  | none =>
    match allCols.find? fun m =>
        (get_drop_position b (m.1 : Int) (m.2 : Int)).isSome with
    | some m => m
    | none => (0, 0)

/-- MyAI.safe_emergency_move.  Only reachable through the top-level
exception handler; the modelled semantics never raises, so get_move never
calls it.  Kept for completeness. -/
def safe_emergency_move (b : Board) : Nat × Nat :=
  match ([(1,1),(2,2),(0,0)] : List (Nat × Nat)).find? (fun m =>
      (get_drop_position b (m.1 : Int) (m.2 : Int)).isSome) with
  | some m => m
  | none => (0, 0)

/-- MyAI.advanced_move_search.  On entry timeout the source returns the
strategic fallback move directly. -/
def advanced_move_search (b : Board) (p : Int) (t3 : Bool)
    (tl : Nat → Bool) : Option (Nat × Nat) × Board :=
  if t3 then (some (strategic_fallback b), b)
  else amsAux p tl (get_ordered_moves b) 0 b none

/-- Oracle for the wall-clock time checks inside one get_move call: t1 and
t2 are the entry checks of the two find_double_threat_move calls, t3 the
entry check of advanced_move_search, and tl its per-iteration checks. -/
structure Timing where
  t1 : Bool
  t2 : Bool
  t3 : Bool
  tl : Nat → Bool

/-- MyAI.get_move: immediate win, immediate block, opening move, own
double threat, opponent double threat, advanced search, fallback.  The
tuple returned by every Python helper is truthy, so "if move:" is the
same as a match on Option.  The second component is the board object
after the call (the source mutates and restores the caller's board). -/
def get_move (b : Board) (player : Int) (last_move : Int × Int × Int)
    (tm : Timing) : (Nat × Nat) × Board :=
  let fiw1 := find_immediate_win b player
  match fiw1.1 with
  | some mv => (mv, fiw1.2)
  | none =>
    let opponent := 3 - player
    let fiw2 := find_immediate_win fiw1.2 opponent
    match fiw2.1 with
    | some mv => (mv, fiw2.2)
    | none =>
      let opening :=
        if is_early_game fiw2.2 then get_opening_move fiw2.2 player
        else none
      match opening with
      | some mv => (mv, fiw2.2)
      | none =>
        let dt1 := find_double_threat_move fiw2.2 player tm.t1
        match dt1.1 with
        | some mv => (mv, dt1.2)
        | none =>
          let dt2 := find_double_threat_move dt1.2 opponent tm.t2
          match dt2.1 with
          | some mv => (mv, dt2.2)
          | none =>
            let ams := advanced_move_search dt2.2 player tm.t3 tm.tl
            match ams.1 with
            | some mv => (mv, ams.2)
            | none => (strategic_fallback ams.2, ams.2)

theorem cellN_eq (b : Board) {z y x : Nat} (hz : z < 4) (hy : y < 4)
    (hx : x < 4) : cellN b z y x = b ⟨z, hz⟩ ⟨y, hy⟩ ⟨x, hx⟩ := by
  unfold cellN
  rw [dif_pos ⟨hz, hy, hx⟩]

theorem cellI_natCast (b : Board) (z y x : Nat) :
    cellI b (z : Int) (y : Int) (x : Int) = cellN b z y x := by
  unfold cellI
  rw [if_pos ⟨Int.natCast_nonneg z, Int.natCast_nonneg y, Int.natCast_nonneg x⟩]
  simp

theorem cellN_setCellN_same (b : Board) {z y x : Nat} (v : Int)
    (hz : z < 4) (hy : y < 4) (hx : x < 4) :
    cellN (setCellN b z y x v) z y x = v := by
  unfold cellN setCellN
  rw [dif_pos ⟨hz, hy, hx⟩]
  simp

theorem cellN_setCellN_ne (b : Board) (v : Int) {z y x z' y' x' : Nat}
    (h : ¬(z' = z ∧ y' = y ∧ x' = x)) :
    cellN (setCellN b z y x v) z' y' x' = cellN b z' y' x' := by
  unfold cellN setCellN
  split
  case isTrue hc => simp [h]
  case isFalse hc => rfl

theorem setCellN_setCellN (b : Board) (z y x : Nat) (v w : Int) :
    setCellN (setCellN b z y x v) z y x w = setCellN b z y x w := by
  funext zi yi xi
  unfold setCellN
  by_cases h : zi.val = z ∧ yi.val = y ∧ xi.val = x <;> simp [h]

theorem setCellN_eq_self {b : Board} {z y x : Nat} {v : Int}
    (h : cellN b z y x = v) : setCellN b z y x v = b := by
  funext zi yi xi
  unfold setCellN
  split
  case isTrue hc =>
    obtain ⟨hz, hy, hx⟩ := hc
    subst hz hy hx
    rw [← h, cellN_eq b zi.isLt yi.isLt xi.isLt]
  case isFalse hc => rfl

theorem setCellN_cancel {b : Board} {z y x : Nat} (v : Int)
    (h : cellN b z y x = 0) :
    setCellN (setCellN b z y x v) z y x 0 = b := by
  rw [setCellN_setCellN]
  exact setCellN_eq_self h

theorem find?_range' {p : Nat → Bool} :
    ∀ n s z, ((List.range' s n).find? p = some z ↔
      s ≤ z ∧ z < s + n ∧ p z = true ∧ ∀ w, s ≤ w → w < z → p w = false) := by
  intro n
  induction n with
  | zero =>
    intro s z
    constructor
    · intro h
      simp [List.range'] at h
    · rintro ⟨h1, h2, _⟩
      omega
  | succ n ih =>
    intro s z
    rw [List.range'_succ]
    by_cases hs : p s
    · rw [List.find?_cons_of_pos _ hs]
      constructor
      · rintro h
        cases h
        exact ⟨le_refl _, by omega, hs, fun w hw hw' => by omega⟩
      · rintro ⟨h1, h2, h3, h4⟩
        rcases Nat.lt_or_ge s z with hlt | hge
        · exact absurd hs (by simpa using h4 s (le_refl _) hlt)
        · have : z = s := le_antisymm hge h1
          rw [this]
    · rw [List.find?_cons_of_neg _ hs]
      rw [ih (s + 1) z]
      constructor
      · rintro ⟨h1, h2, h3, h4⟩
        refine ⟨by omega, by omega, h3, fun w hw hw' => ?_⟩
        rcases Nat.eq_or_lt_of_le hw with heq | hlt
        · rw [← heq]
          exact eq_false_of_ne_true hs
        · exact h4 w (by omega) hw'
      · rintro ⟨h1, h2, h3, h4⟩
        have hzs : z ≠ s := by
          rintro rfl
          exact hs h3
        exact ⟨by omega, by omega, h3, fun w hw hw' => h4 w (by omega) hw'⟩

theorem find?_range {p : Nat → Bool} {n z : Nat} :
    (List.range n).find? p = some z ↔
      z < n ∧ p z = true ∧ ∀ w < z, p w = false := by
  rw [List.range_eq_range', find?_range' n 0 z]
  constructor
  · rintro ⟨h1, h2, h3, h4⟩
    exact ⟨by omega, h3, fun w hw => h4 w (Nat.zero_le w) hw⟩
  · rintro ⟨h1, h2, h3⟩
    exact ⟨Nat.zero_le z, by omega, h2, fun w _ hw => h3 w hw⟩

theorem gdp_none_of_oob {b : Board} {x y : Int}
    (h : ¬(0 ≤ x ∧ x < 4 ∧ 0 ≤ y ∧ y < 4)) :
    get_drop_position b x y = none := by
  unfold get_drop_position
  rw [if_neg h]

theorem gdp_bounds {b : Board} {x y : Int} {z : Nat}
    (h : get_drop_position b x y = some z) :
    0 ≤ x ∧ x < 4 ∧ 0 ≤ y ∧ y < 4 := by
  by_contra hb
  rw [gdp_none_of_oob hb] at h
  cases h

theorem gdp_some_iff {b : Board} {x y : Int}
    (hb : 0 ≤ x ∧ x < 4 ∧ 0 ≤ y ∧ y < 4) (z : Nat) :
    get_drop_position b x y = some z ↔
      z < 4 ∧ cellI b (z : Int) y x = 0 ∧
        ∀ w < z, cellI b (w : Int) y x ≠ 0 := by
  unfold get_drop_position
  rw [if_pos hb, find?_range]
  constructor
  · rintro ⟨h1, h2, h3⟩
    refine ⟨h1, by simpa using h2, fun w hw => ?_⟩
    have := h3 w hw
    simpa using this
  · rintro ⟨h1, h2, h3⟩
    refine ⟨h1, by simpa using h2, fun w hw => ?_⟩
    have := h3 w hw
    simpa using this

theorem gdp_none_iff {b : Board} {x y : Int}
    (hb : 0 ≤ x ∧ x < 4 ∧ 0 ≤ y ∧ y < 4) :
    get_drop_position b x y = none ↔
      ∀ z : Nat, z < 4 → cellI b (z : Int) y x ≠ 0 := by
  unfold get_drop_position
  rw [if_pos hb, List.find?_eq_none]
  constructor
  · intro h z hz
    have := h z (by simpa using List.mem_range.mpr hz)
    simpa using this
  · intro h z hz
    have := h z (by simpa using hz)
    simpa using this

/-- Loop invariant predicate of check_win_fast's walks: the probed cell is
in range and holds the player's piece. -/
def goodI (b : Board) (p : Int) (x y z : Int) : Prop :=
  0 ≤ x ∧ x < 4 ∧ 0 ≤ y ∧ y < 4 ∧ 0 ≤ z ∧ z < 4 ∧ cellI b z y x = p

instance goodI_dec (b : Board) (p x y z : Int) : Decidable (goodI b p x y z) :=
  inferInstanceAs (Decidable (0 ≤ x ∧ x < 4 ∧ 0 ≤ y ∧ y < 4 ∧ 0 ≤ z ∧
    z < 4 ∧ cellI b z y x = p))

theorem runAux_succ (n : Nat) (b : Board) (p x y z dx dy dz : Int) :
    runAux (n + 1) b p x y z dx dy dz =
      if goodI b p x y z then 1 + runAux n b p (x + dx) (y + dy) (z + dz) dx dy dz
      else 0 := rfl

theorem runAux_good :
    ∀ (n : Nat) (b : Board) (p x y z dx dy dz : Int) (i : Nat),
      i < runAux n b p x y z dx dy dz →
      goodI b p (x + (i : Int) * dx) (y + (i : Int) * dy)
        (z + (i : Int) * dz) := by
  intro n
  induction n with
  | zero =>
    intro b p x y z dx dy dz i hi
    simp [runAux] at hi
  | succ n ih =>
    intro b p x y z dx dy dz i hi
    rw [runAux_succ] at hi
    split at hi
    case isTrue hg =>
      match i with
      | 0 => simpa using hg
      | i + 1 =>
        have hi' : i < runAux n b p (x + dx) (y + dy) (z + dz) dx dy dz := by
          omega
        have := ih b p (x + dx) (y + dy) (z + dz) dx dy dz i hi'
        have e1 : (x + dx) + (i : Int) * dx = x + ((i + 1 : Nat) : Int) * dx := by
          push_cast
          ring
        have e2 : (y + dy) + (i : Int) * dy = y + ((i + 1 : Nat) : Int) * dy := by
          push_cast
          ring
        have e3 : (z + dz) + (i : Int) * dz = z + ((i + 1 : Nat) : Int) * dz := by
          push_cast
          ring
        rwa [e1, e2, e3] at this
    case isFalse => omega

theorem runAux_ge :
    ∀ (n : Nat) (b : Board) (p x y z dx dy dz : Int) (k : Nat), k ≤ n →
      (∀ i : Nat, i < k →
        goodI b p (x + (i : Int) * dx) (y + (i : Int) * dy)
          (z + (i : Int) * dz)) →
      k ≤ runAux n b p x y z dx dy dz := by
  intro n
  induction n with
  | zero =>
    intro b p x y z dx dy dz k hk _
    omega
  | succ n ih =>
    intro b p x y z dx dy dz k hk hgood
    match k with
    | 0 => omega
    | k + 1 =>
      have h0 : goodI b p x y z := by simpa using hgood 0 (by omega)
      rw [runAux_succ, if_pos h0]
      have hrest : k ≤ runAux n b p (x + dx) (y + dy) (z + dz) dx dy dz := by
        refine ih b p (x + dx) (y + dy) (z + dz) dx dy dz k (by omega) ?_
        intro i hi
        have := hgood (i + 1) (by omega)
        have e1 : x + ((i + 1 : Nat) : Int) * dx = (x + dx) + (i : Int) * dx := by
          push_cast
          ring
        have e2 : y + ((i + 1 : Nat) : Int) * dy = (y + dy) + (i : Int) * dy := by
          push_cast
          ring
        have e3 : z + ((i + 1 : Nat) : Int) * dz = (z + dz) + (i : Int) * dz := by
          push_cast
          ring
        rwa [e1, e2, e3] at this
      omega

theorem runFrom_good {b : Board} {p x y z : Int} {d : Dir} {t : Nat}
    (h1 : 1 ≤ t) (h2 : t ≤ runFrom b p x y z d) :
    goodI b p (x + (t : Int) * d.1) (y + (t : Int) * d.2.1)
      (z + (t : Int) * d.2.2) := by
  unfold runFrom at h2
  have h := runAux_good 4 b p (x + d.1) (y + d.2.1) (z + d.2.2)
    d.1 d.2.1 d.2.2 (t - 1) (by omega)
  have e1 : (x + d.1) + ((t - 1 : Nat) : Int) * d.1 = x + (t : Int) * d.1 := by
    push_cast [h1]
    ring
  have e2 : (y + d.2.1) + ((t - 1 : Nat) : Int) * d.2.1 = y + (t : Int) * d.2.1 := by
    push_cast [h1]
    ring
  have e3 : (z + d.2.2) + ((t - 1 : Nat) : Int) * d.2.2 = z + (t : Int) * d.2.2 := by
    push_cast [h1]
    ring
  rwa [e1, e2, e3] at h

theorem runFrom_ge {b : Board} {p x y z : Int} {d : Dir} {k : Nat}
    (hk : k ≤ 4)
    (h : ∀ t : Nat, 1 ≤ t → t ≤ k →
      goodI b p (x + (t : Int) * d.1) (y + (t : Int) * d.2.1)
        (z + (t : Int) * d.2.2)) :
    k ≤ runFrom b p x y z d := by
  unfold runFrom
  refine runAux_ge 4 b p (x + d.1) (y + d.2.1) (z + d.2.2)
    d.1 d.2.1 d.2.2 k hk ?_
  intro i hi
  have := h (i + 1) (by omega) (by omega)
  have e1 : x + ((i + 1 : Nat) : Int) * d.1 = (x + d.1) + (i : Int) * d.1 := by
    push_cast
    ring
  have e2 : y + ((i + 1 : Nat) : Int) * d.2.1 = (y + d.2.1) + (i : Int) * d.2.1 := by
    push_cast
    ring
  have e3 : z + ((i + 1 : Nat) : Int) * d.2.2 = (z + d.2.2) + (i : Int) * d.2.2 := by
    push_cast
    ring
  rwa [e1, e2, e3] at this

/-- Integer view of a line cell. -/
def toIntCell (c : Cell) : Int × Int × Int :=
  ((c.1 : Int), (c.2.1 : Int), (c.2.2 : Int))

/-- Cell i of the 4-cell window through c in direction d that puts c at
position j: c + (i - j) * d. -/
def windowCellI (c : Int × Int × Int) (d : Dir) (j i : Nat) :
    Int × Int × Int :=
  (c.1 + ((i : Int) - (j : Int)) * d.1,
   c.2.1 + ((i : Int) - (j : Int)) * d.2.1,
   c.2.2 + ((i : Int) - (j : Int)) * d.2.2)

/-- Membership of an integer point in the 4x4x4 cube. -/
def inCube (c : Int × Int × Int) : Prop :=
  0 ≤ c.1 ∧ c.1 < 4 ∧ 0 ≤ c.2.1 ∧ c.2.1 < 4 ∧ 0 ≤ c.2.2 ∧ c.2.2 < 4

instance inCube_dec (c : Int × Int × Int) : Decidable (inCube c) :=
  inferInstanceAs (Decidable (0 ≤ c.1 ∧ c.1 < 4 ∧ 0 ≤ c.2.1 ∧ c.2.1 < 4 ∧
    0 ≤ c.2.2 ∧ c.2.2 < 4))

/-- Each direction pair of check_win_fast is a direction and its negation. -/
theorem dirPairs_neg : ∀ pr ∈ dirPairs,
    pr.2.1 = -pr.1.1 ∧ pr.2.2.1 = -pr.1.2.1 ∧ pr.2.2.2 = -pr.1.2.2 := by
  decide

/-- Every cell of every catalog line is in range. -/
theorem lines_inrange : ∀ l ∈ get_all_winning_lines, ∀ c ∈ l,
    c.1 < 4 ∧ c.2.1 < 4 ∧ c.2.2 < 4 := by
  decide

/-- The whole 4-cell window through (x, y, z) lies inside the cube. -/
def windowInCube (x y z : Nat) (d : Dir) (j : Nat) : Prop :=
  ∀ i : Nat, i < 4 →
    inCube (windowCellI ((x : Int), (y : Int), (z : Int)) d j i)

instance windowInCube_dec (x y z : Nat) (d : Dir) (j : Nat) :
    Decidable (windowInCube x y z d j) :=
  inferInstanceAs (Decidable (∀ i : Nat, i < 4 →
    inCube (windowCellI ((x : Int), (y : Int), (z : Int)) d j i)))

/-- Some catalog line through (x, y, z) is contained in the window. -/
def windowCovers (x y z : Nat) (d : Dir) (j : Nat) : Prop :=
  ∃ l ∈ get_all_winning_lines, (x, y, z) ∈ l ∧
    ∀ c' ∈ l, ∃ i : Nat, i < 4 ∧
      toIntCell c' = windowCellI ((x : Int), (y : Int), (z : Int)) d j i

instance windowCovers_dec (x y z : Nat) (d : Dir) (j : Nat) :
    Decidable (windowCovers x y z d j) :=
  inferInstanceAs (Decidable (∃ l ∈ get_all_winning_lines, (x, y, z) ∈ l ∧
    ∀ c' ∈ l, ∃ i : Nat, i < 4 ∧
      toIntCell c' = windowCellI ((x : Int), (y : Int), (z : Int)) d j i))

set_option maxHeartbeats 4000000 in
/-- Geometric fact: any 4-cell window in a check_win_fast direction that
lies inside the cube and passes through an in-range cell is (as a set of
cells) one of the catalog lines through that cell. -/
theorem window_line : ∀ x : Nat, x < 4 → ∀ y : Nat, y < 4 → ∀ z : Nat, z < 4 →
    ∀ pr ∈ dirPairs, ∀ j : Nat, j < 4 →
    windowInCube x y z pr.1 j → windowCovers x y z pr.1 j := by
  decide

set_option maxHeartbeats 4000000 in
/-- Geometric fact: every catalog line through a cell c is covered by a
4-cell window in one of check_win_fast's directions with c at offset j. -/
theorem line_window : ∀ l ∈ get_all_winning_lines, ∀ c ∈ l,
    ∃ pr ∈ dirPairs, ∃ j : Nat, j < 4 ∧ ∀ i : Nat, i < 4 →
      ∃ c' ∈ l, toIntCell c' = windowCellI (toIntCell c) pr.1 j i := by
  decide

theorem goodI_of_cellAt {b : Board} {p : Int} {l : Line}
    (hl : l ∈ get_all_winning_lines) {c : Cell} (hc : c ∈ l)
    (h : cellAt b c = p) :
    goodI b p (c.1 : Int) (c.2.1 : Int) (c.2.2 : Int) := by
  obtain ⟨h1, h2, h3⟩ := lines_inrange l hl c hc
  refine ⟨Int.natCast_nonneg _, by exact_mod_cast h1, Int.natCast_nonneg _,
    by exact_mod_cast h2, Int.natCast_nonneg _, by exact_mod_cast h3, ?_⟩
  rw [cellI_natCast]
  exact h

/-- Bridge between the source's run-based win test and the line catalog:
with the piece at in-range (x, y, z), check_win_fast succeeds exactly when
some catalog line through (x, y, z) is entirely the player's. -/
theorem check_win_iff (b : Board) (p : Int) (x y z : Nat)
    (hx : x < 4) (hy : y < 4) (hz : z < 4) (hc : cellN b z y x = p) :
    check_win_fast b p (x : Int) (y : Int) (z : Int) = true ↔
      ∃ l ∈ get_all_winning_lines, (x, y, z) ∈ l ∧
        ∀ c ∈ l, cellAt b c = p := by
  have hgood : goodI b p (x : Int) (y : Int) (z : Int) :=
    ⟨Int.natCast_nonneg _, by exact_mod_cast hx, Int.natCast_nonneg _,
      by exact_mod_cast hy, Int.natCast_nonneg _, by exact_mod_cast hz,
      by rw [cellI_natCast]; exact hc⟩
  constructor
  · intro h
    rw [check_win_fast, List.any_eq_true] at h
    obtain ⟨pr, hpr, hcnt⟩ := h
    rw [decide_eq_true_eq] at hcnt
    obtain ⟨hneg1, hneg2, hneg3⟩ := dirPairs_neg pr hpr
    rw [pairCount] at hcnt
    set a := runFrom b p (x : Int) (y : Int) (z : Int) pr.1 with ha
    set m := runFrom b p (x : Int) (y : Int) (z : Int) pr.2 with hm
    have ham : 3 ≤ a + m := by omega
    set j := min m 3 with hj
    have hwindow : ∀ i : Nat, i < 4 →
        goodI b p ((x : Int) + ((i : Int) - (j : Int)) * pr.1.1)
          ((y : Int) + ((i : Int) - (j : Int)) * pr.1.2.1)
          ((z : Int) + ((i : Int) - (j : Int)) * pr.1.2.2) := by
      intro i hi
      rcases Nat.lt_trichotomy i j with hij | hij | hij
      · have h1t : 1 ≤ j - i := by omega
        have hle : j - i ≤ m := by omega
        have e1 : (x : Int) + ((j - i : Nat) : Int) * pr.2.1 =
            (x : Int) + ((i : Int) - (j : Int)) * pr.1.1 := by
          rw [hneg1]
          push_cast [Nat.cast_sub (by omega : i ≤ j)]
          ring
        have e2 : (y : Int) + ((j - i : Nat) : Int) * pr.2.2.1 =
            (y : Int) + ((i : Int) - (j : Int)) * pr.1.2.1 := by
          rw [hneg2]
          push_cast [Nat.cast_sub (by omega : i ≤ j)]
          ring
        have e3 : (z : Int) + ((j - i : Nat) : Int) * pr.2.2.2 =
            (z : Int) + ((i : Int) - (j : Int)) * pr.1.2.2 := by
          rw [hneg3]
          push_cast [Nat.cast_sub (by omega : i ≤ j)]
          ring
        have hg' := runFrom_good (b := b) (p := p) (x := (x : Int))
          (y := (y : Int)) (z := (z : Int)) (d := pr.2) (t := j - i) h1t
          (by omega)
        rwa [e1, e2, e3] at hg'
      · rw [hij]
        simpa using hgood
      · have h1t : 1 ≤ i - j := by omega
        have hle : i - j ≤ a := by omega
        have hg' := runFrom_good (b := b) (p := p) (x := (x : Int))
          (y := (y : Int)) (z := (z : Int)) (d := pr.1) (t := i - j) h1t
          (by omega)
        have e1 : (x : Int) + ((i - j : Nat) : Int) * pr.1.1 =
            (x : Int) + ((i : Int) - (j : Int)) * pr.1.1 := by
          push_cast [Nat.cast_sub (by omega : j ≤ i)]
          ring
        have e2 : (y : Int) + ((i - j : Nat) : Int) * pr.1.2.1 =
            (y : Int) + ((i : Int) - (j : Int)) * pr.1.2.1 := by
          push_cast [Nat.cast_sub (by omega : j ≤ i)]
          ring
        have e3 : (z : Int) + ((i - j : Nat) : Int) * pr.1.2.2 =
            (z : Int) + ((i : Int) - (j : Int)) * pr.1.2.2 := by
          push_cast [Nat.cast_sub (by omega : j ≤ i)]
          ring
        rwa [e1, e2, e3] at hg'
    have hwc : windowInCube x y z pr.1 j := by
      intro i hi
      obtain ⟨g1, g2, g3, g4, g5, g6, _⟩ := hwindow i hi
      exact ⟨g1, g2, g3, g4, g5, g6⟩
    obtain ⟨l, hl, hxl, hcov⟩ :=
      window_line x hx y hy z hz pr hpr j (by omega) hwc
    refine ⟨l, hl, hxl, ?_⟩
    intro c' hc'
    obtain ⟨i, hi, heq⟩ := hcov c' hc'
    obtain ⟨_, _, _, _, _, _, g7⟩ := hwindow i hi
    simp only [toIntCell, windowCellI, Prod.mk.injEq] at heq
    obtain ⟨e1, e2, e3⟩ := heq
    rw [cellAt, ← cellI_natCast, e3, e2, e1]
    exact g7
  · rintro ⟨l, hl, hxl, hall⟩
    obtain ⟨pr, hpr, j, hj, hwin⟩ := line_window l hl (x, y, z) hxl
    obtain ⟨hneg1, hneg2, hneg3⟩ := dirPairs_neg pr hpr
    have ha : 3 - j ≤ runFrom b p (x : Int) (y : Int) (z : Int) pr.1 := by
      refine runFrom_ge (by omega) ?_
      intro t h1t ht
      obtain ⟨c', hc'l, heq⟩ := hwin (j + t) (by omega)
      simp only [toIntCell, windowCellI, Prod.mk.injEq] at heq
      obtain ⟨e1, e2, e3⟩ := heq
      have f1 : (x : Int) + (t : Int) * pr.1.1 = (c'.1 : Int) := by
        rw [e1]
        push_cast
        ring
      have f2 : (y : Int) + (t : Int) * pr.1.2.1 = (c'.2.1 : Int) := by
        rw [e2]
        push_cast
        ring
      have f3 : (z : Int) + (t : Int) * pr.1.2.2 = (c'.2.2 : Int) := by
        rw [e3]
        push_cast
        ring
      rw [f1, f2, f3]
      exact goodI_of_cellAt hl hc'l (hall c' hc'l)
    have hm : j ≤ runFrom b p (x : Int) (y : Int) (z : Int) pr.2 := by
      refine runFrom_ge (by omega) ?_
      intro t h1t ht
      obtain ⟨c', hc'l, heq⟩ := hwin (j - t) (by omega)
      simp only [toIntCell, windowCellI, Prod.mk.injEq] at heq
      obtain ⟨e1, e2, e3⟩ := heq
      have f1 : (x : Int) + (t : Int) * pr.2.1 = (c'.1 : Int) := by
        rw [e1, hneg1]
        push_cast [Nat.cast_sub (by omega : t ≤ j)]
        ring
      have f2 : (y : Int) + (t : Int) * pr.2.2.1 = (c'.2.1 : Int) := by
        rw [e2, hneg2]
        push_cast [Nat.cast_sub (by omega : t ≤ j)]
        ring
      have f3 : (z : Int) + (t : Int) * pr.2.2.2 = (c'.2.2 : Int) := by
        rw [e3, hneg3]
        push_cast [Nat.cast_sub (by omega : t ≤ j)]
        ring
      rw [f1, f2, f3]
      exact goodI_of_cellAt hl hc'l (hall c' hc'l)
    rw [check_win_fast, List.any_eq_true]
    refine ⟨pr, hpr, ?_⟩
    rw [decide_eq_true_eq, pairCount]
    omega

theorem gdp_nat_some {b : Board} {x y z : Nat}
    (h : get_drop_position b (x : Int) (y : Int) = some z) :
    x < 4 ∧ y < 4 ∧ z < 4 ∧ cellN b z y x = 0 := by
  have hb := gdp_bounds h
  have hs := (gdp_some_iff hb z).mp h
  refine ⟨by exact_mod_cast hb.2.1, by exact_mod_cast hb.2.2.2, hs.1, ?_⟩
  have := hs.2.1
  rwa [cellI_natCast] at this

theorem mem_allCols_all : ∀ x : Nat, x < 4 → ∀ y : Nat, y < 4 →
    (x, y) ∈ allCols := by
  decide

/-- Dropping at column (x, y) with drop height z completes a winning line
for p: some catalog line through (x, y, z) becomes entirely p's. -/
def wins_with_move (b : Board) (p : Int) (x y z : Nat) : Prop :=
  ∃ l ∈ get_all_winning_lines, (x, y, z) ∈ l ∧
    ∀ c ∈ l, cellAt (setCellN b z y x p) c = p

instance wins_with_move_dec (b : Board) (p : Int) (x y z : Nat) :
    Decidable (wins_with_move b p x y z) :=
  inferInstanceAs (Decidable (∃ l ∈ get_all_winning_lines, (x, y, z) ∈ l ∧
    ∀ c ∈ l, cellAt (setCellN b z y x p) c = p))

theorem cwf_iff_wins {b : Board} {p : Int} {x y z : Nat}
    (hd : get_drop_position b (x : Int) (y : Int) = some z) :
    check_win_fast (setCellN b z y x p) p (x : Int) (y : Int) (z : Int) = true ↔
      wins_with_move b p x y z := by
  obtain ⟨hx, hy, hz, _⟩ := gdp_nat_some hd
  exact check_win_iff _ p x y z hx hy hz (cellN_setCellN_same b p hz hy hx)

theorem fiwAux_frame (p : Int) :
    ∀ (coords : List (Nat × Nat)) (b : Board), (fiwAux p coords b).2 = b := by
  intro coords
  induction coords with
  | nil => intro b; rfl
  | cons m rest ih =>
    intro b
    simp only [fiwAux]
    cases hd : get_drop_position b (m.1 : Int) (m.2 : Int) with
    | none => exact ih b
    | some z =>
      have hcell : cellN b z m.2 m.1 = 0 := (gdp_nat_some hd).2.2.2
      by_cases hw : check_win_fast (setCellN b z m.2 m.1 p) p
          (m.1 : Int) (m.2 : Int) (z : Int) = true
      · simp [hw, setCellN_cancel _ hcell]
      · simp only [hw]
        rw [if_neg (by simp [hw]), setCellN_cancel _ hcell]
        exact ih b

theorem fiwAux_sound (p : Int) :
    ∀ (coords : List (Nat × Nat)) (b : Board) (mv : Nat × Nat),
      (fiwAux p coords b).1 = some mv →
      mv ∈ coords ∧ ∃ z : Nat,
        get_drop_position b (mv.1 : Int) (mv.2 : Int) = some z ∧
        check_win_fast (setCellN b z mv.2 mv.1 p) p
          (mv.1 : Int) (mv.2 : Int) (z : Int) = true := by
  intro coords
  induction coords with
  | nil => intro b mv h; simp [fiwAux] at h
  | cons m rest ih =>
    intro b mv h
    simp only [fiwAux] at h
    cases hd : get_drop_position b (m.1 : Int) (m.2 : Int) with
    | none =>
      rw [hd] at h
      obtain ⟨hmem, hrest⟩ := ih b mv h
      exact ⟨List.mem_cons_of_mem m hmem, hrest⟩
    | some z =>
      rw [hd] at h
      have hcell : cellN b z m.2 m.1 = 0 := (gdp_nat_some hd).2.2.2
      have h' : (if check_win_fast (setCellN b z m.2 m.1 p) p
            (m.1 : Int) (m.2 : Int) (z : Int) = true
          then (some m, setCellN (setCellN b z m.2 m.1 p) z m.2 m.1 0)
          else fiwAux p rest
            (setCellN (setCellN b z m.2 m.1 p) z m.2 m.1 0)).1 = some mv := h
      by_cases hw : check_win_fast (setCellN b z m.2 m.1 p) p
          (m.1 : Int) (m.2 : Int) (z : Int) = true
      · rw [if_pos hw] at h'
        have hsome : some m = some mv := h'
        cases hsome
        exact ⟨List.mem_cons_self m rest, z, hd, hw⟩
      · rw [if_neg hw, setCellN_cancel _ hcell] at h'
        obtain ⟨hmem, hrest⟩ := ih b mv h'
        exact ⟨List.mem_cons_of_mem m hmem, hrest⟩

theorem fiwAux_complete (p : Int) :
    ∀ (coords : List (Nat × Nat)) (b : Board),
      (∃ m ∈ coords, ∃ z : Nat,
        get_drop_position b (m.1 : Int) (m.2 : Int) = some z ∧
        check_win_fast (setCellN b z m.2 m.1 p) p
          (m.1 : Int) (m.2 : Int) (z : Int) = true) →
      (fiwAux p coords b).1.isSome := by
  intro coords
  induction coords with
  | nil => rintro b ⟨m, hm, _⟩; simp at hm
  | cons m rest ih =>
    rintro b ⟨m', hm', z', hd', hw'⟩
    simp only [fiwAux]
    cases hd : get_drop_position b (m.1 : Int) (m.2 : Int) with
    | none =>
      have hne : m' ≠ m := by
        rintro rfl
        rw [hd'] at hd
        cases hd
      have : m' ∈ rest := by
        rcases List.mem_cons.mp hm' with h | h
        · exact absurd h hne
        · exact h
      exact ih b ⟨m', this, z', hd', hw'⟩
    | some z =>
      have hcell : cellN b z m.2 m.1 = 0 := (gdp_nat_some hd).2.2.2
      show (if check_win_fast (setCellN b z m.2 m.1 p) p
            (m.1 : Int) (m.2 : Int) (z : Int) = true
          then (some m, setCellN (setCellN b z m.2 m.1 p) z m.2 m.1 0)
          else fiwAux p rest
            (setCellN (setCellN b z m.2 m.1 p) z m.2 m.1 0)).1.isSome = true
      by_cases hw : check_win_fast (setCellN b z m.2 m.1 p) p
          (m.1 : Int) (m.2 : Int) (z : Int) = true
      · rw [if_pos hw]
        rfl
      · rw [if_neg hw, setCellN_cancel _ hcell]
        rcases List.mem_cons.mp hm' with heq | hmem
        · subst heq
          rw [hd'] at hd
          cases hd
          exact absurd hw' hw
        · exact ih b ⟨m', hmem, z', hd', hw'⟩

theorem allCols_bounds : ∀ m ∈ allCols, m.1 < 4 ∧ m.2 < 4 := by
  decide

theorem priorityMoves_bounds : ∀ m ∈ priorityMoves, m.1 < 4 ∧ m.2 < 4 := by
  decide

theorem allCellCoords_bounds : ∀ c ∈ allCellCoords,
    c.1 < 4 ∧ c.2.1 < 4 ∧ c.2.2 < 4 := by
  decide

theorem mem_allCellCoords_all : ∀ x : Nat, x < 4 → ∀ y : Nat, y < 4 →
    ∀ z : Nat, z < 4 → (x, y, z) ∈ allCellCoords := by
  intro x hx y hy z hz
  interval_cases x <;> interval_cases y <;> interval_cases z <;> decide

theorem two_le_length_of_mem {α : Type} {l : List α} {a b : α}
    (ha : a ∈ l) (hb : b ∈ l) (hne : a ≠ b) : 2 ≤ l.length := by
  induction l with
  | nil => cases ha
  | cons c t ih =>
    rcases List.mem_cons.mp ha with rfl | hat
    · rcases List.mem_cons.mp hb with rfl | hbt
      · exact absurd rfl hne
      · have : 0 < t.length := List.length_pos.mpr (List.ne_nil_of_mem hbt)
        simp only [List.length_cons]
        omega
    · rcases List.mem_cons.mp hb with rfl | hbt
      · have : 0 < t.length := List.length_pos.mpr (List.ne_nil_of_mem hat)
        simp only [List.length_cons]
        omega
      · have := ih hat hbt
        simp only [List.length_cons]
        omega

theorem cellI_toNat {b : Board} {z y x : Int} (hz : 0 ≤ z) (hy : 0 ≤ y)
    (hx : 0 ≤ x) : cellI b z y x = cellN b z.toNat y.toNat x.toNat := by
  unfold cellI
  rw [if_pos ⟨hz, hy, hx⟩]

theorem gdp_of_cell0 {b : Board} {x y : Nat} (hx : x < 4) (hy : y < 4)
    (h0 : cellN b 0 y x = 0) :
    get_drop_position b (x : Int) (y : Int) = some 0 := by
  have hb : (0 : Int) ≤ (x : Int) ∧ (x : Int) < 4 ∧ (0 : Int) ≤ (y : Int) ∧
      (y : Int) < 4 :=
    ⟨Int.natCast_nonneg _, by exact_mod_cast hx, Int.natCast_nonneg _,
      by exact_mod_cast hy⟩
  rw [gdp_some_iff hb 0]
  refine ⟨by omega, ?_, fun w hw => by omega⟩
  have := cellI_natCast b 0 y x
  simpa using this ▸ h0

theorem moveCount_zero_cells {b : Board} (h : moveCount b = 0) :
    ∀ z y x : Nat, z < 4 → y < 4 → x < 4 → cellN b z y x = 0 := by
  intro z y x hz hy hx
  unfold moveCount at h
  rw [List.length_eq_zero] at h
  have hmem := mem_allCellCoords_all x hx y hy z hz
  by_contra hne
  have : (x, y, z) ∈ allCellCoords.filter fun c => cellAt b c != 0 :=
    List.mem_filter.mpr ⟨hmem, bne_iff_ne.mpr hne⟩
  rw [h] at this
  cases this

theorem opening_sound {b : Board} {p : Int} {mv : Nat × Nat}
    (h : get_opening_move b p = some mv) :
    mv.1 < 4 ∧ mv.2 < 4 ∧
      (get_drop_position b (mv.1 : Int) (mv.2 : Int)).isSome := by
  unfold get_opening_move at h
  by_cases h0 : moveCount b = 0 ∧ p = 1
  · rw [if_pos h0] at h
    have hmv : mv = (1, 1) := by
      cases h
      rfl
    subst hmv
    have := gdp_of_cell0 (b := b) (x := 1) (y := 1) (by omega) (by omega)
      (moveCount_zero_cells h0.1 0 1 1 (by omega) (by omega) (by omega))
    refine ⟨by omega, by omega, ?_⟩
    rw [Option.isSome_iff_exists]
    exact ⟨0, by exact_mod_cast this⟩
  · rw [if_neg h0] at h
    by_cases h1 : moveCount b = 1 ∧ p = 2
    · rw [if_pos h1] at h
      by_cases hc : cellN b 0 1 1 = 1
      · rw [if_pos hc] at h
        have hmv : mv = (2, 2) := by
          cases h
          rfl
        subst hmv
        have hempty : cellN b 0 2 2 = 0 := by
          by_contra hne
          have hm1 : ((1, 1, 0) : Cell) ∈
              allCellCoords.filter fun c => cellAt b c != 0 :=
            List.mem_filter.mpr ⟨mem_allCellCoords_all 1 (by omega) 1
              (by omega) 0 (by omega),
              bne_iff_ne.mpr (by simpa [cellAt] using hc ▸ (by simp [hc] : cellN b 0 1 1 ≠ 0))⟩
          have hm2 : ((2, 2, 0) : Cell) ∈
              allCellCoords.filter fun c => cellAt b c != 0 :=
            List.mem_filter.mpr ⟨mem_allCellCoords_all 2 (by omega) 2
              (by omega) 0 (by omega), bne_iff_ne.mpr (by simpa [cellAt] using hne)⟩
          have := two_le_length_of_mem hm1 hm2 (by decide)
          unfold moveCount at h1
          omega
        have := gdp_of_cell0 (b := b) (x := 2) (y := 2) (by omega) (by omega)
          hempty
        refine ⟨by omega, by omega, ?_⟩
        rw [Option.isSome_iff_exists]
        exact ⟨0, by exact_mod_cast this⟩
      · rw [if_neg hc] at h
        cases h
    · rw [if_neg h1] at h
      by_cases h2 : moveCount b = 2 ∧ p = 1
      · rw [if_pos h2] at h
        have hmem := List.mem_of_find?_eq_some h
        have hpred := List.find?_some h
        have hb : mv.1 < 4 ∧ mv.2 < 4 := by
          have : ∀ m ∈ ([(1,2),(2,1),(2,2)] : List (Nat × Nat)),
              m.1 < 4 ∧ m.2 < 4 := by decide
          exact this mv hmem
        exact ⟨hb.1, hb.2, hpred⟩
      · rw [if_neg h2] at h
        cases h

theorem fdtAux_frame (p : Int) :
    ∀ (coords : List (Nat × Nat)) (b : Board) (best : Option (Nat × Nat))
      (mx : Int), (fdtAux p coords b best mx).2.2 = b := by
  intro coords
  induction coords with
  | nil => intro b best mx; rfl
  | cons m rest ih =>
    intro b best mx
    cases hd : get_drop_position b (m.1 : Int) (m.2 : Int) with
    | none =>
      simp only [fdtAux, hd]
      exact ih b best mx
    | some z =>
      have hcell : cellN b z m.2 m.1 = 0 := (gdp_nat_some hd).2.2.2
      simp only [fdtAux, hd]
      rw [setCellN_cancel _ hcell]
      by_cases hts : mx < analyze_threat_space (setCellN b z m.2 m.1 p) p
      · rw [if_pos hts]
        exact ih b _ _
      · rw [if_neg hts]
        exact ih b best mx

theorem fdtAux_sound (p : Int) :
    ∀ (coords : List (Nat × Nat)) (b : Board) (best : Option (Nat × Nat))
      (mx : Int) (mv : Nat × Nat),
      (fdtAux p coords b best mx).1 = some mv →
      best = some mv ∨ (mv ∈ coords ∧ ∃ z : Nat,
        get_drop_position b (mv.1 : Int) (mv.2 : Int) = some z) := by
  intro coords
  induction coords with
  | nil =>
    intro b best mx mv h
    exact Or.inl h
  | cons m rest ih =>
    intro b best mx mv h
    cases hd : get_drop_position b (m.1 : Int) (m.2 : Int) with
    | none =>
      simp only [fdtAux, hd] at h
      rcases ih b best mx mv h with h' | ⟨hmem, hz⟩
      · exact Or.inl h'
      · exact Or.inr ⟨List.mem_cons_of_mem m hmem, hz⟩
    | some z =>
      have hcell : cellN b z m.2 m.1 = 0 := (gdp_nat_some hd).2.2.2
      simp only [fdtAux, hd] at h
      rw [setCellN_cancel _ hcell] at h
      by_cases hts : mx < analyze_threat_space (setCellN b z m.2 m.1 p) p
      · rw [if_pos hts] at h
        rcases ih b (some m) _ mv h with h' | ⟨hmem, hz⟩
        · have : m = mv := by
            cases h'
            rfl
          subst this
          exact Or.inr ⟨List.mem_cons_self m rest, z, hd⟩
        · exact Or.inr ⟨List.mem_cons_of_mem m hmem, hz⟩
      · rw [if_neg hts] at h
        rcases ih b best mx mv h with h' | ⟨hmem, hz⟩
        · exact Or.inl h'
        · exact Or.inr ⟨List.mem_cons_of_mem m hmem, hz⟩

theorem fdt_frame (b : Board) (p : Int) (t : Bool) :
    (find_double_threat_move b p t).2 = b := by
  unfold find_double_threat_move
  cases t with
  | true => rfl
  | false =>
    simp only [Bool.false_eq_true, if_false]
    exact fdtAux_frame p allCols b none 0

theorem fdt_sound {b : Board} {p : Int} {t : Bool} {mv : Nat × Nat}
    (h : (find_double_threat_move b p t).1 = some mv) :
    mv ∈ allCols ∧ ∃ z : Nat,
      get_drop_position b (mv.1 : Int) (mv.2 : Int) = some z := by
  unfold find_double_threat_move at h
  cases t with
  | true => cases h
  | false =>
    simp only [Bool.false_eq_true, if_false] at h
    by_cases hth : 2000 ≤ (fdtAux p allCols b none 0).2.1
    · rw [if_pos hth] at h
      rcases fdtAux_sound p allCols b none 0 mv h with h' | h'
      · cases h'
      · exact h'
    · rw [if_neg hth] at h
      cases h

theorem ema_frame {b : Board} {x y z : Nat} (p : Int)
    (hd : get_drop_position b (x : Int) (y : Int) = some z) :
    (evaluate_move_advanced b x y z p).2 = b := by
  obtain ⟨_, _, _, hcell⟩ := gdp_nat_some hd
  simp only [evaluate_move_advanced, evaluate_strategic_value,
    calculate_blocking_value, setCellN_setCellN, setCellN_eq_self hcell]

theorem amsAux_frame (p : Int) (tl : Nat → Bool) :
    ∀ (coords : List (Nat × Nat)) (i : Nat) (b : Board)
      (best : Option (Int × (Nat × Nat))),
      (amsAux p tl coords i b best).2 = b := by
  intro coords
  induction coords with
  | nil => intro i b best; rfl
  | cons m rest ih =>
    intro i b best
    cases htl : tl i with
    | true => simp [amsAux, htl]
    | false =>
      cases hd : get_drop_position b (m.1 : Int) (m.2 : Int) with
      | none =>
        simp only [amsAux, htl, hd, Bool.false_eq_true, if_false]
        exact ih (i + 1) b best
      | some z =>
        cases best with
        | none =>
          simp only [amsAux, htl, hd, Bool.false_eq_true, if_false]
          rw [ema_frame p hd]
          exact ih (i + 1) b _
        | some s =>
          simp only [amsAux, htl, hd, Bool.false_eq_true, if_false]
          rw [ema_frame p hd]
          by_cases hs : s.1 < (evaluate_move_advanced b m.1 m.2 z p).1
          · rw [if_pos hs]
            exact ih (i + 1) b _
          · rw [if_neg hs]
            exact ih (i + 1) b _

theorem amsAux_sound (p : Int) (tl : Nat → Bool) :
    ∀ (coords : List (Nat × Nat)) (i : Nat) (b : Board)
      (best : Option (Int × (Nat × Nat))) (mv : Nat × Nat),
      (amsAux p tl coords i b best).1 = some mv →
      (∃ s : Int, best = some (s, mv)) ∨ (mv ∈ coords ∧ ∃ z : Nat,
        get_drop_position b (mv.1 : Int) (mv.2 : Int) = some z) := by
  intro coords
  induction coords with
  | nil =>
    intro i b best mv h
    cases best with
    | none => cases h
    | some s =>
      left
      refine ⟨s.1, ?_⟩
      have h' : some s.2 = some mv := h
      cases h'
      rfl
  | cons m rest ih =>
    intro i b best mv h
    cases htl : tl i with
    | true =>
      rw [amsAux] at h
      rw [if_pos (by simp [htl])] at h
      cases best with
      | none => cases h
      | some s =>
        left
        refine ⟨s.1, ?_⟩
        have h' : some s.2 = some mv := h
        cases h'
        rfl
    | false =>
      cases hd : get_drop_position b (m.1 : Int) (m.2 : Int) with
      | none =>
        simp only [amsAux, htl, hd, Bool.false_eq_true, if_false] at h
        rcases ih (i + 1) b best mv h with h' | ⟨hmem, hz⟩
        · exact Or.inl h'
        · exact Or.inr ⟨List.mem_cons_of_mem m hmem, hz⟩
      | some z =>
        cases best with
        | none =>
          simp only [amsAux, htl, hd, Bool.false_eq_true, if_false] at h
          rw [ema_frame p hd] at h
          rcases ih (i + 1) b _ mv h with ⟨s', hs'⟩ | ⟨hmem, hz⟩
          · have : m = mv := by
              simp only [Option.some.injEq, Prod.mk.injEq] at hs'
              exact hs'.2
            subst this
            exact Or.inr ⟨List.mem_cons_self m rest, z, hd⟩
          · exact Or.inr ⟨List.mem_cons_of_mem m hmem, hz⟩
        | some s =>
          simp only [amsAux, htl, hd, Bool.false_eq_true, if_false] at h
          rw [ema_frame p hd] at h
          by_cases hs : s.1 < (evaluate_move_advanced b m.1 m.2 z p).1
          · rw [if_pos hs] at h
            rcases ih (i + 1) b _ mv h with ⟨s', hs'⟩ | ⟨hmem, hz⟩
            · have : m = mv := by
                simp only [Option.some.injEq, Prod.mk.injEq] at hs'
                exact hs'.2
              subst this
              exact Or.inr ⟨List.mem_cons_self m rest, z, hd⟩
            · exact Or.inr ⟨List.mem_cons_of_mem m hmem, hz⟩
          · rw [if_neg hs] at h
            rcases ih (i + 1) b _ mv h with ⟨s', hs'⟩ | ⟨hmem, hz⟩
            · left
              have hse : s = (s', mv) := Option.some.inj hs'
              subst hse
              exact ⟨s', rfl⟩
            · exact Or.inr ⟨List.mem_cons_of_mem m hmem, hz⟩

theorem sf_legal {b : Board}
    (h : ∃ m ∈ allCols,
      (get_drop_position b (m.1 : Int) (m.2 : Int)).isSome = true) :
    (strategic_fallback b).1 < 4 ∧ (strategic_fallback b).2 < 4 ∧
      (get_drop_position b ((strategic_fallback b).1 : Int)
        ((strategic_fallback b).2 : Int)).isSome = true := by
  unfold strategic_fallback
  cases hf : priorityMoves.find? (fun m =>
      (get_drop_position b (m.1 : Int) (m.2 : Int)).isSome) with
  | some m =>
    have hpred := List.find?_some hf
    have hmem := List.mem_of_find?_eq_some hf
    have hb := priorityMoves_bounds m hmem
    exact ⟨hb.1, hb.2, hpred⟩
  | none =>
    cases hf2 : allCols.find? (fun m =>
        (get_drop_position b (m.1 : Int) (m.2 : Int)).isSome) with
    | some m =>
      have hpred := List.find?_some hf2
      have hmem := List.mem_of_find?_eq_some hf2
      have hb := allCols_bounds m hmem
      exact ⟨hb.1, hb.2, hpred⟩
    | none =>
      exfalso
      obtain ⟨m, hm, hlegal⟩ := h
      have := List.find?_eq_none.mp hf2 m hm
      simp [hlegal] at this

theorem ams_frame (b : Board) (p : Int) (t3 : Bool) (tl : Nat → Bool) :
    (advanced_move_search b p t3 tl).2 = b := by
  unfold advanced_move_search
  cases t3 with
  | true => rfl
  | false =>
    simp only [Bool.false_eq_true, if_false]
    exact amsAux_frame p tl (get_ordered_moves b) 0 b none

theorem ams_sound {b : Board} {p : Int} {t3 : Bool} {tl : Nat → Bool}
    {mv : Nat × Nat} (h : (advanced_move_search b p t3 tl).1 = some mv)
    (hleg : ∃ m ∈ allCols,
      (get_drop_position b (m.1 : Int) (m.2 : Int)).isSome = true) :
    mv.1 < 4 ∧ mv.2 < 4 ∧
      (get_drop_position b (mv.1 : Int) (mv.2 : Int)).isSome = true := by
  unfold advanced_move_search at h
  cases t3 with
  | true =>
    have h' : some (strategic_fallback b) = some mv := h
    have hmv := Option.some.inj h'
    rw [← hmv]
    exact sf_legal hleg
  | false =>
    simp only [Bool.false_eq_true, if_false] at h
    rcases amsAux_sound p tl (get_ordered_moves b) 0 b none mv h with
      ⟨s, hs⟩ | ⟨_, z, hz⟩
    · cases hs
    · have hb := gdp_nat_some hz
      refine ⟨hb.1, hb.2.1, ?_⟩
      rw [hz]
      rfl

/-- C9: the last_move argument is accepted but never read, so for a fixed
timing oracle the decision is literally the same function of board and
player for any two values of last_move. -/
theorem claim_C9 (b : Board) (p : Int) (tm : Timing)
    (lm lm' : Int × Int × Int) :
    get_move b p lm tm = get_move b p lm' tm := rfl

/-- C4: the board returned by get_move is the board that was passed in —
every speculative placement inside find_immediate_win,
find_double_threat_move and evaluate_move_advanced is undone. -/
theorem claim_C4 (b : Board) (p : Int) (lm : Int × Int × Int) (tm : Timing) :
    (get_move b p lm tm).2 = b := by
  cases hf1 : find_immediate_win b p with
  | mk o1 c1 =>
  have hc1 : c1 = b := by
    have hfr : (find_immediate_win b p).2 = b := fiwAux_frame p allCols b
    rw [hf1] at hfr
    exact hfr
  rw [hc1] at hf1
  clear hc1
  cases o1 with
  | some mv => simp only [get_move, hf1]
  | none =>
  cases hf2 : find_immediate_win b (3 - p) with
  | mk o2 c2 =>
  have hc2 : c2 = b := by
    have hfr : (find_immediate_win b (3 - p)).2 = b :=
      fiwAux_frame (3 - p) allCols b
    rw [hf2] at hfr
    exact hfr
  rw [hc2] at hf2
  clear hc2
  cases o2 with
  | some mv => simp only [get_move, hf1, hf2]
  | none =>
  cases hop : (if is_early_game b then get_opening_move b p else none) with
  | some mv => simp only [get_move, hf1, hf2, hop]
  | none =>
  cases hdt1 : find_double_threat_move b p tm.t1 with
  | mk o3 c3 =>
  have hc3 : c3 = b := by
    have hfr := fdt_frame b p tm.t1
    rw [hdt1] at hfr
    exact hfr
  rw [hc3] at hdt1
  clear hc3
  cases o3 with
  | some mv => simp only [get_move, hf1, hf2, hop, hdt1]
  | none =>
  cases hdt2 : find_double_threat_move b (3 - p) tm.t2 with
  | mk o4 c4 =>
  have hc4 : c4 = b := by
    have hfr := fdt_frame b (3 - p) tm.t2
    rw [hdt2] at hfr
    exact hfr
  rw [hc4] at hdt2
  clear hc4
  cases o4 with
  | some mv => simp only [get_move, hf1, hf2, hop, hdt1, hdt2]
  | none =>
  cases hams : advanced_move_search b p tm.t3 tm.tl with
  | mk o5 c5 =>
  have hc5 : c5 = b := by
    have hfr := ams_frame b p tm.t3 tm.tl
    rw [hams] at hfr
    exact hfr
  rw [hc5] at hams
  clear hc5
  cases o5 with
  | some mv => simp only [get_move, hf1, hf2, hop, hdt1, hdt2, hams]
  | none => simp only [get_move, hf1, hf2, hop, hdt1, hdt2, hams]

/-- C1: whenever some column still has room, get_move returns in-range
coordinates (x, y) whose column has room on the caller's board, for any
player in {1, 2}, any last_move and any timing. -/
theorem claim_C1 (b : Board) (p : Int) (lm : Int × Int × Int) (tm : Timing)
    (hp : p = 1 ∨ p = 2)
    (hleg : ∃ x : Nat, x < 4 ∧ ∃ y : Nat, y < 4 ∧
      (get_drop_position b (x : Int) (y : Int)).isSome = true) :
    ∃ x y : Nat, (get_move b p lm tm).1 = (x, y) ∧ x < 4 ∧ y < 4 ∧
      (get_drop_position b (x : Int) (y : Int)).isSome = true := by
  have hlegs : ∃ m ∈ allCols,
      (get_drop_position b (m.1 : Int) (m.2 : Int)).isSome = true := by
    obtain ⟨x, hx, y, hy, hs⟩ := hleg
    exact ⟨(x, y), mem_allCols_all x hx y hy, hs⟩
  cases hf1 : find_immediate_win b p with
  | mk o1 c1 =>
  have hc1 : c1 = b := by
    have hfr : (find_immediate_win b p).2 = b := fiwAux_frame p allCols b
    rw [hf1] at hfr
    exact hfr
  rw [hc1] at hf1
  clear hc1
  cases o1 with
  | some mv =>
    have h1 : (find_immediate_win b p).1 = some mv := by rw [hf1]
    obtain ⟨_, z, hd, _⟩ := fiwAux_sound p allCols b mv h1
    have hb := gdp_nat_some hd
    refine ⟨mv.1, mv.2, ?_, hb.1, hb.2.1, by rw [hd]; rfl⟩
    simp only [get_move, hf1]
  | none =>
  cases hf2 : find_immediate_win b (3 - p) with
  | mk o2 c2 =>
  have hc2 : c2 = b := by
    have hfr : (find_immediate_win b (3 - p)).2 = b :=
      fiwAux_frame (3 - p) allCols b
    rw [hf2] at hfr
    exact hfr
  rw [hc2] at hf2
  clear hc2
  cases o2 with
  | some mv =>
    have h2 : (find_immediate_win b (3 - p)).1 = some mv := by rw [hf2]
    obtain ⟨_, z, hd, _⟩ := fiwAux_sound (3 - p) allCols b mv h2
    have hb := gdp_nat_some hd
    refine ⟨mv.1, mv.2, ?_, hb.1, hb.2.1, by rw [hd]; rfl⟩
    simp only [get_move, hf1, hf2]
  | none =>
  cases hop : (if is_early_game b then get_opening_move b p else none) with
  | some mv =>
    have hleg' : mv.1 < 4 ∧ mv.2 < 4 ∧
        (get_drop_position b (mv.1 : Int) (mv.2 : Int)).isSome = true := by
      by_cases heg : is_early_game b = true
      · rw [if_pos heg] at hop
        have := opening_sound hop
        exact ⟨this.1, this.2.1, this.2.2⟩
      · rw [if_neg heg] at hop
        cases hop
    refine ⟨mv.1, mv.2, ?_, hleg'.1, hleg'.2.1, hleg'.2.2⟩
    simp only [get_move, hf1, hf2, hop]
  | none =>
  cases hdt1 : find_double_threat_move b p tm.t1 with
  | mk o3 c3 =>
  have hc3 : c3 = b := by
    have hfr := fdt_frame b p tm.t1
    rw [hdt1] at hfr
    exact hfr
  rw [hc3] at hdt1
  clear hc3
  cases o3 with
  | some mv =>
    have h3 : (find_double_threat_move b p tm.t1).1 = some mv := by rw [hdt1]
    obtain ⟨_, z, hd⟩ := fdt_sound h3
    have hb := gdp_nat_some hd
    refine ⟨mv.1, mv.2, ?_, hb.1, hb.2.1, by rw [hd]; rfl⟩
    simp only [get_move, hf1, hf2, hop, hdt1]
  | none =>
  cases hdt2 : find_double_threat_move b (3 - p) tm.t2 with
  | mk o4 c4 =>
  have hc4 : c4 = b := by
    have hfr := fdt_frame b (3 - p) tm.t2
    rw [hdt2] at hfr
    exact hfr
  rw [hc4] at hdt2
  clear hc4
  cases o4 with
  | some mv =>
    have h4 : (find_double_threat_move b (3 - p) tm.t2).1 = some mv := by
      rw [hdt2]
    obtain ⟨_, z, hd⟩ := fdt_sound h4
    have hb := gdp_nat_some hd
    refine ⟨mv.1, mv.2, ?_, hb.1, hb.2.1, by rw [hd]; rfl⟩
    simp only [get_move, hf1, hf2, hop, hdt1, hdt2]
  | none =>
  cases hams : advanced_move_search b p tm.t3 tm.tl with
  | mk o5 c5 =>
  have hc5 : c5 = b := by
    have hfr := ams_frame b p tm.t3 tm.tl
    rw [hams] at hfr
    exact hfr
  rw [hc5] at hams
  clear hc5
  cases o5 with
  | some mv =>
    have h5 : (advanced_move_search b p tm.t3 tm.tl).1 = some mv := by
      rw [hams]
    have hleg' := ams_sound h5 hlegs
    refine ⟨mv.1, mv.2, ?_, hleg'.1, hleg'.2.1, hleg'.2.2⟩
    simp only [get_move, hf1, hf2, hop, hdt1, hdt2, hams]
  | none =>
    have hsf := sf_legal hlegs
    refine ⟨(strategic_fallback b).1, (strategic_fallback b).2, ?_,
      hsf.1, hsf.2.1, hsf.2.2⟩
    simp only [get_move, hf1, hf2, hop, hdt1, hdt2, hams]

/-- C2: if some legal drop immediately wins for the mover, get_move
returns a column whose drop immediately wins for the mover (stage 1 of
the decision pipeline). -/
theorem claim_C2 (b : Board) (p : Int) (lm : Int × Int × Int) (tm : Timing)
    (hp : p = 1 ∨ p = 2)
    (hwin : ∃ x : Nat, x < 4 ∧ ∃ y : Nat, y < 4 ∧ ∃ z : Nat,
      get_drop_position b (x : Int) (y : Int) = some z ∧
      wins_with_move b p x y z) :
    ∃ x y z : Nat, (get_move b p lm tm).1 = (x, y) ∧
      get_drop_position b (x : Int) (y : Int) = some z ∧
      wins_with_move b p x y z := by
  obtain ⟨x0, hx0, y0, hy0, z0, hd0, hw0⟩ := hwin
  have hcw0 : check_win_fast (setCellN b z0 y0 x0 p) p
      (x0 : Int) (y0 : Int) (z0 : Int) = true := (cwf_iff_wins hd0).mpr hw0
  have hsome := fiwAux_complete p allCols b
    ⟨(x0, y0), mem_allCols_all x0 hx0 y0 hy0, z0, hd0, hcw0⟩
  cases hf1 : find_immediate_win b p with
  | mk o1 c1 =>
  have hc1 : c1 = b := by
    have hfr : (find_immediate_win b p).2 = b := fiwAux_frame p allCols b
    rw [hf1] at hfr
    exact hfr
  rw [hc1] at hf1
  clear hc1
  cases o1 with
  | none =>
    exfalso
    have hs : (find_immediate_win b p).1.isSome = true := hsome
    rw [hf1] at hs
    simp at hs
  | some mv =>
    have h1 : (find_immediate_win b p).1 = some mv := by rw [hf1]
    obtain ⟨_, z, hd, hcw⟩ := fiwAux_sound p allCols b mv h1
    refine ⟨mv.1, mv.2, z, ?_, hd, (cwf_iff_wins hd).mp hcw⟩
    simp only [get_move, hf1]

/-- C3: if no legal drop wins for the mover but some legal drop would win
for the opponent, get_move returns a column whose drop is an opponent
winning cell (stage 2, the blocking stage). -/
theorem claim_C3 (b : Board) (p : Int) (lm : Int × Int × Int) (tm : Timing)
    (hp : p = 1 ∨ p = 2)
    (hnowin : ∀ x : Nat, x < 4 → ∀ y : Nat, y < 4 → ∀ z : Nat,
      get_drop_position b (x : Int) (y : Int) = some z →
      ¬ wins_with_move b p x y z)
    (hblock : ∃ x : Nat, x < 4 ∧ ∃ y : Nat, y < 4 ∧ ∃ z : Nat,
      get_drop_position b (x : Int) (y : Int) = some z ∧
      wins_with_move b (3 - p) x y z) :
    ∃ x y z : Nat, (get_move b p lm tm).1 = (x, y) ∧
      get_drop_position b (x : Int) (y : Int) = some z ∧
      wins_with_move b (3 - p) x y z := by
  cases hf1 : find_immediate_win b p with
  | mk o1 c1 =>
  have hc1 : c1 = b := by
    have hfr : (find_immediate_win b p).2 = b := fiwAux_frame p allCols b
    rw [hf1] at hfr
    exact hfr
  rw [hc1] at hf1
  clear hc1
  cases o1 with
  | some mv =>
    exfalso
    have h1 : (find_immediate_win b p).1 = some mv := by rw [hf1]
    obtain ⟨_, z, hd, hcw⟩ := fiwAux_sound p allCols b mv h1
    have hb := gdp_nat_some hd
    exact hnowin mv.1 hb.1 mv.2 hb.2.1 z hd ((cwf_iff_wins hd).mp hcw)
  | none =>
  obtain ⟨x0, hx0, y0, hy0, z0, hd0, hw0⟩ := hblock
  have hcw0 : check_win_fast (setCellN b z0 y0 x0 (3 - p)) (3 - p)
      (x0 : Int) (y0 : Int) (z0 : Int) = true := (cwf_iff_wins hd0).mpr hw0
  have hsome := fiwAux_complete (3 - p) allCols b
    ⟨(x0, y0), mem_allCols_all x0 hx0 y0 hy0, z0, hd0, hcw0⟩
  cases hf2 : find_immediate_win b (3 - p) with
  | mk o2 c2 =>
  have hc2 : c2 = b := by
    have hfr : (find_immediate_win b (3 - p)).2 = b :=
      fiwAux_frame (3 - p) allCols b
    rw [hf2] at hfr
    exact hfr
  rw [hc2] at hf2
  clear hc2
  cases o2 with
  | none =>
    exfalso
    have hs : (find_immediate_win b (3 - p)).1.isSome = true := hsome
    rw [hf2] at hs
    simp at hs
  | some mv =>
    have h2 : (find_immediate_win b (3 - p)).1 = some mv := by rw [hf2]
    obtain ⟨_, z, hd, hcw⟩ := fiwAux_sound (3 - p) allCols b mv h2
    refine ⟨mv.1, mv.2, z, ?_, hd, (cwf_iff_wins hd).mp hcw⟩
    simp only [get_move, hf1, hf2]

theorem fiwAux_all_none (p : Int) :
    ∀ (coords : List (Nat × Nat)) (b : Board),
      (∀ m ∈ coords, get_drop_position b (m.1 : Int) (m.2 : Int) = none) →
      fiwAux p coords b = (none, b) := by
  intro coords
  induction coords with
  | nil => intro b _; rfl
  | cons m rest ih =>
    intro b h
    simp only [fiwAux, h m (List.mem_cons_self m rest)]
    exact ih b fun m' hm' => h m' (List.mem_cons_of_mem m hm')

theorem fdtAux_all_none (p : Int) :
    ∀ (coords : List (Nat × Nat)) (b : Board) (best : Option (Nat × Nat))
      (mx : Int),
      (∀ m ∈ coords, get_drop_position b (m.1 : Int) (m.2 : Int) = none) →
      fdtAux p coords b best mx = (best, mx, b) := by
  intro coords
  induction coords with
  | nil => intro b best mx _; rfl
  | cons m rest ih =>
    intro b best mx h
    simp only [fdtAux, h m (List.mem_cons_self m rest)]
    exact ih b best mx fun m' hm' => h m' (List.mem_cons_of_mem m hm')

/-- C10: on a completely full board (every cell nonzero) every stage of
get_move falls through and strategic_fallback returns (0, 0), which
get_move reports even though column (0, 0) has no room. -/
theorem claim_C10 (b : Board) (p : Int) (lm : Int × Int × Int) (tm : Timing)
    (hfull : ∀ z : Nat, z < 4 → ∀ y : Nat, y < 4 → ∀ x : Nat, x < 4 →
      cellN b z y x ≠ 0) :
    (get_move b p lm tm).1 = (0, 0) := by
  have hdropall : ∀ x y : Int, get_drop_position b x y = none := by
    intro x y
    by_cases hb : 0 ≤ x ∧ x < 4 ∧ 0 ≤ y ∧ y < 4
    · rw [gdp_none_iff hb]
      intro z hz
      rw [cellI_toNat (Int.natCast_nonneg z) hb.2.2.1 hb.1]
      have e : ((z : Int)).toNat = z := Int.toNat_natCast z
      rw [e]
      exact hfull z hz y.toNat (by omega) x.toNat (by omega)
    · exact gdp_none_of_oob hb
  have hmc : moveCount b = 64 := by
    unfold moveCount
    have : allCellCoords.filter (fun c => cellAt b c != 0) = allCellCoords := by
      rw [List.filter_eq_self]
      intro c hc
      obtain ⟨h1, h2, h3⟩ := allCellCoords_bounds c hc
      exact bne_iff_ne.mpr (hfull c.2.2 h3 c.2.1 h2 c.1 h1)
    rw [this]
    rfl
  have hfiw : ∀ q : Int, find_immediate_win b q = (none, b) := by
    intro q
    exact fiwAux_all_none q allCols b fun m _ => hdropall _ _
  have heg : is_early_game b = false := by
    unfold is_early_game
    rw [hmc]
    rfl
  have hfdt : ∀ (q : Int) (t : Bool),
      find_double_threat_move b q t = (none, b) := by
    intro q t
    unfold find_double_threat_move
    cases t with
    | true => rfl
    | false =>
      simp only [Bool.false_eq_true, if_false]
      rw [fdtAux_all_none q allCols b none 0 fun m _ => hdropall _ _]
      rfl
  have hsf : strategic_fallback b = (0, 0) := by
    unfold strategic_fallback
    have h1 : priorityMoves.find? (fun m =>
        (get_drop_position b (m.1 : Int) (m.2 : Int)).isSome) = none := by
      rw [List.find?_eq_none]
      intro m _
      rw [hdropall]
      simp
    have h2 : allCols.find? (fun m =>
        (get_drop_position b (m.1 : Int) (m.2 : Int)).isSome) = none := by
      rw [List.find?_eq_none]
      intro m _
      rw [hdropall]
      simp
    rw [h1, h2]
  have hgom : get_ordered_moves b = [] := by
    unfold get_ordered_moves
    have h1 : centerMoves.filter (fun m =>
        (get_drop_position b (m.1 : Int) (m.2 : Int)).isSome) = [] := by
      rw [List.filter_eq_nil]
      intro m _
      rw [hdropall]
      simp
    have h2 : allCols.filter (fun m => decide (m ∉ centerMoves) &&
        (get_drop_position b (m.1 : Int) (m.2 : Int)).isSome) = [] := by
      rw [List.filter_eq_nil]
      intro m _
      rw [hdropall]
      simp
    rw [h1, h2]
    rfl
  have hams : advanced_move_search b p tm.t3 tm.tl =
      if tm.t3 then (some (0, 0), b) else (none, b) := by
    unfold advanced_move_search
    cases tm.t3 with
    | true =>
      simp only [if_true]
      rw [hsf]
    | false =>
      simp only [Bool.false_eq_true, if_false]
      rw [hgom]
      rfl
  cases htm : tm.t3 with
  | true =>
    rw [htm] at hams
    simp only [if_true] at hams
    simp only [get_move, hfiw, heg, Bool.false_eq_true, if_false, hfdt, htm,
      hams]
  | false =>
    rw [htm] at hams
    simp only [Bool.false_eq_true, if_false] at hams
    simp only [get_move, hfiw, heg, Bool.false_eq_true, if_false, hfdt, htm,
      hams, hsf]

/-- C6: get_drop_position fails closed out of range; in range it returns
the lowest empty z or none when the column is full; and on a column
holding 1, 2, 1 at heights 0..2 it returns 3 before a piece is placed at
height 3 and none afterwards. -/
theorem claim_C6 (b : Board) (x y : Int) :
    (¬(0 ≤ x ∧ x < 4 ∧ 0 ≤ y ∧ y < 4) → get_drop_position b x y = none) ∧
    ((0 ≤ x ∧ x < 4 ∧ 0 ≤ y ∧ y < 4) →
      (∀ z : Nat, get_drop_position b x y = some z ↔
        z < 4 ∧ cellI b (z : Int) y x = 0 ∧
          ∀ w : Nat, w < z → cellI b (w : Int) y x ≠ 0) ∧
      (get_drop_position b x y = none ↔
        ∀ z : Nat, z < 4 → cellI b (z : Int) y x ≠ 0)) ∧
    ((0 ≤ x ∧ x < 4 ∧ 0 ≤ y ∧ y < 4) →
      cellI b 0 y x = 1 → cellI b 1 y x = 2 → cellI b 2 y x = 1 →
      cellI b 3 y x = 0 →
      get_drop_position b x y = some 3 ∧
      get_drop_position (setCellN b 3 y.toNat x.toNat 2) x y = none) := by
  refine ⟨fun h => gdp_none_of_oob h,
    fun hb => ⟨fun z => gdp_some_iff hb z, gdp_none_iff hb⟩,
    fun hb h0 h1 h2 h3 => ?_⟩
  have hyn : y.toNat < 4 := by omega
  have hxn : x.toNat < 4 := by omega
  have hcell : ∀ k : Nat, cellI b (k : Int) y x = cellN b k y.toNat x.toNat := by
    intro k
    rw [cellI_toNat (Int.natCast_nonneg k) hb.2.2.1 hb.1, Int.toNat_natCast]
  have h0' : cellN b 0 y.toNat x.toNat = 1 := by
    rw [← hcell 0]
    exact_mod_cast h0
  have h1' : cellN b 1 y.toNat x.toNat = 2 := by
    rw [← hcell 1]
    exact_mod_cast h1
  have h2' : cellN b 2 y.toNat x.toNat = 1 := by
    rw [← hcell 2]
    exact_mod_cast h2
  have h3' : cellN b 3 y.toNat x.toNat = 0 := by
    rw [← hcell 3]
    exact_mod_cast h3
  constructor
  · rw [gdp_some_iff hb 3]
    refine ⟨by omega, by rw [hcell 3]; exact h3', ?_⟩
    intro w hw
    rw [hcell w]
    interval_cases w
    · rw [h0']
      omega
    · rw [h1']
      omega
    · rw [h2']
      omega
  · rw [gdp_none_iff hb]
    intro z hz
    have hcell2 : cellI (setCellN b 3 y.toNat x.toNat 2) (z : Int) y x =
        cellN (setCellN b 3 y.toNat x.toNat 2) z y.toNat x.toNat := by
      rw [cellI_toNat (Int.natCast_nonneg z) hb.2.2.1 hb.1, Int.toNat_natCast]
    rw [hcell2]
    interval_cases z
    · rw [cellN_setCellN_ne _ _ (by omega), h0']
      omega
    · rw [cellN_setCellN_ne _ _ (by omega), h1']
      omega
    · rw [cellN_setCellN_ne _ _ (by omega), h2']
      omega
    · rw [cellN_setCellN_same _ _ (by omega) hyn hxn]
      omega

/-- C7: get_ordered_moves lists exactly the legal columns, without
duplicates, with every legal central column before every legal
non-central column. -/
theorem claim_C7 (b : Board) :
    (∀ m : Nat × Nat, m ∈ get_ordered_moves b ↔
      (get_drop_position b (m.1 : Int) (m.2 : Int)).isSome = true) ∧
    (get_ordered_moves b).Nodup ∧
    (∃ l1 l2 : List (Nat × Nat), get_ordered_moves b = l1 ++ l2 ∧
      (∀ m ∈ l1, m ∈ centerMoves) ∧ ∀ m ∈ l2, m ∉ centerMoves) := by
  refine ⟨?_, ?_, ?_⟩
  · intro m
    constructor
    · intro hm
      rcases List.mem_append.mp hm with hm1 | hm2
      · exact (List.mem_filter.mp hm1).2
      · have := (List.mem_filter.mp hm2).2
        rw [Bool.and_eq_true] at this
        exact this.2
    · intro hleg
      obtain ⟨z, hz⟩ := Option.isSome_iff_exists.mp hleg
      have hbnd := gdp_nat_some hz
      have hmem : m ∈ allCols := by
        have := mem_allCols_all m.1 hbnd.1 m.2 hbnd.2.1
        simpa using this
      by_cases hc : m ∈ centerMoves
      · exact List.mem_append.mpr (Or.inl (List.mem_filter.mpr ⟨hc, hleg⟩))
      · refine List.mem_append.mpr (Or.inr (List.mem_filter.mpr
          ⟨hmem, ?_⟩))
        rw [Bool.and_eq_true]
        exact ⟨decide_eq_true hc, hleg⟩
  · refine List.Nodup.append ?_ ?_ ?_
    · exact List.Nodup.filter _ (by decide)
    · exact List.Nodup.filter _ (by decide)
    · rw [List.disjoint_left]
      intro m hm1 hm2
      have hcm : m ∈ centerMoves := (List.mem_filter.mp hm1).1
      have := (List.mem_filter.mp hm2).2
      rw [Bool.and_eq_true] at this
      exact (of_decide_eq_true this.1) hcm
  · refine ⟨_, _, rfl, ?_, ?_⟩
    · intro m hm
      exact (List.mem_filter.mp hm).1
    · intro m hm
      have := (List.mem_filter.mp hm).2
      rw [Bool.and_eq_true] at this
      exact of_decide_eq_true this.1

theorem filter3_partition {α : Type} (l : List α) (q1 q2 q3 : α → Bool)
    (h : ∀ a ∈ l, (q1 a = true ∧ q2 a = false ∧ q3 a = false) ∨
      (q1 a = false ∧ q2 a = true ∧ q3 a = false) ∨
      (q1 a = false ∧ q2 a = false ∧ q3 a = true)) :
    l.length = (l.filter q1).length + (l.filter q2).length +
      (l.filter q3).length := by
  induction l with
  | nil => rfl
  | cons a t ih =>
    have ht := ih fun a' ha' => h a' (List.mem_cons_of_mem a ha')
    rcases h a (List.mem_cons_self a t) with ⟨h1, h2, h3⟩ | ⟨h1, h2, h3⟩ |
        ⟨h1, h2, h3⟩ <;>
      simp only [List.filter_cons, h1, h2, h3, List.length_cons, if_true,
        if_false, cond_true, cond_false] <;>
      simp <;> omega

/-- C8: the per-line analysis flags an immediate threat for the player
exactly when the player holds 3 cells of the line, the opponent none,
exactly one cell is empty, and that empty cell is the current drop
position of its column. -/
theorem claim_C8 (b : Board) (line : Line) (p : Int)
    (hp : p = 1 ∨ p = 2)
    (hrange : ∀ c ∈ line, c.1 < 4 ∧ c.2.1 < 4 ∧ c.2.2 < 4)
    (hvals : ∀ c ∈ line, cellAt b c = 0 ∨ cellAt b c = 1 ∨ cellAt b c = 2) :
    ((analyze_line_threats b line p (3 - p)).immediate_threat = true ↔
      ((line.filter fun c => cellAt b c == p).length = 3 ∧
       (line.filter fun c => cellAt b c == 3 - p).length = 0 ∧
       ∃ e : Cell, (line.filter fun c => cellAt b c == 0) = [e] ∧
         get_drop_position b (e.1 : Int) (e.2.1 : Int) = some e.2.2)) := by
  have hpne : (3 : Int) - p ≠ p := by
    rcases hp with rfl | rfl <;> norm_num
  have hp0 : p ≠ 0 := by
    rcases hp with rfl | rfl <;> norm_num
  have ho0 : (3 : Int) - p ≠ 0 := by
    rcases hp with rfl | rfl <;> norm_num
  have htheir : (line.filter fun c =>
        cellAt b c != p && cellAt b c == 3 - p) =
      line.filter fun c => cellAt b c == 3 - p := by
    apply List.filter_congr
    intro c _
    by_cases hco : cellAt b c = 3 - p
    · simp [hco, bne_iff_ne, hpne]
    · simp [hco]
  have hempt : (line.filter fun c =>
        cellAt b c != p && cellAt b c != 3 - p) =
      line.filter fun c => cellAt b c == 0 := by
    apply List.filter_congr
    intro c hc
    rcases hvals c hc with hv | hv | hv <;> rcases hp with rfl | rfl <;>
      simp [hv]
  have hrng : (line.all fun c =>
      decide (c.1 < 4 ∧ c.2.1 < 4 ∧ c.2.2 < 4)) = true := by
    rw [List.all_eq_true]
    intro c hc
    exact decide_eq_true (hrange c hc)
  have hpart := filter3_partition line (fun c => cellAt b c == p)
    (fun c => cellAt b c == 3 - p) (fun c => cellAt b c == 0)
    (by
      intro c hc
      rcases hvals c hc with hv | hv | hv <;> rcases hp with rfl | rfl <;>
        simp [hv])
  unfold analyze_line_threats
  rw [if_pos hrng, htheir, hempt]
  by_cases hblk : 0 < (line.filter fun c => cellAt b c == p).length ∧
      0 < (line.filter fun c => cellAt b c == 3 - p).length
  · rw [if_pos hblk]
    constructor
    · intro hfalse
      cases hfalse
    · rintro ⟨h3, h0, _⟩
      omega
  · rw [if_neg hblk]
    show ((line.filter fun c => cellAt b c == p).length == 3 &&
        (match line.filter fun c => cellAt b c == 0 with
         | [e] => is_position_playable b e
         | _ => false)) = true ↔ _
    rw [Bool.and_eq_true]
    constructor
    · rintro ⟨hc3, hmatch⟩
      have hc3' : (line.filter fun c => cellAt b c == p).length = 3 := by
        simpa using hc3
      cases helist : line.filter fun c => cellAt b c == 0 with
      | nil =>
        rw [helist] at hmatch
        cases hmatch
      | cons e tail =>
        cases tail with
        | nil =>
          rw [helist] at hmatch
          have hplay : is_position_playable b e = true := hmatch
          have hdrop : get_drop_position b (e.1 : Int) (e.2.1 : Int) =
              some e.2.2 := by
            unfold is_position_playable at hplay
            simpa using hplay
          exact ⟨hc3', by omega, e, rfl, hdrop⟩
        | cons e2 tail2 =>
          rw [helist] at hmatch
          cases hmatch
    · rintro ⟨h3, h0, e, helist, hdrop⟩
      refine ⟨by rw [h3]; decide, ?_⟩
      rw [helist]
      show is_position_playable b e = true
      unfold is_position_playable
      rw [hdrop]
      simp

/-- Timing oracle that never reports a timeout. -/
def timingW : Timing := ⟨false, false, false, fun _ => false⟩

/-- The empty board. -/
def boardEmpty : Board := fun _ _ _ => 0

/-- Three of player 1's pieces stacked at heights 0..2 of column (1, 1). -/
def boardC2 : Board :=
  fun z y x => if x.val = 1 ∧ y.val = 1 ∧ z.val ≤ 2 then 1 else 0

/-- Three of player 2's pieces stacked at heights 0..2 of column (0, 0). -/
def boardC3 : Board :=
  fun z y x => if x.val = 0 ∧ y.val = 0 ∧ z.val ≤ 2 then 2 else 0

/-- Column (1, 1) holds 1, 2, 1 at heights 0..2; everything else empty. -/
def boardC6 : Board :=
  fun z y x =>
    if x.val = 1 ∧ y.val = 1 then
      if z.val = 0 then 1 else if z.val = 1 then 2 else if z.val = 2 then 1
      else 0
    else 0

/-- A completely full board with no winning line relevant: cells alternate
between 1 and 2 by coordinate parity. -/
def boardFull : Board :=
  fun z y x => if (z.val + y.val + x.val) % 2 = 0 then 1 else 2

theorem claim_C1_witness :
    ((1 : Int) = 1 ∨ (1 : Int) = 2) ∧
    (∃ x : Nat, x < 4 ∧ ∃ y : Nat, y < 4 ∧
      (get_drop_position boardEmpty (x : Int) (y : Int)).isSome = true) ∧
    (∃ x y : Nat, (get_move boardEmpty 1 (0, 0, 0) timingW).1 = (x, y) ∧
      x < 4 ∧ y < 4 ∧
      (get_drop_position boardEmpty (x : Int) (y : Int)).isSome = true) :=
  ⟨Or.inl rfl, ⟨0, by omega, 0, by omega, by decide⟩,
    claim_C1 boardEmpty 1 (0, 0, 0) timingW (Or.inl rfl)
      ⟨0, by omega, 0, by omega, by decide⟩⟩

theorem claim_C2_witness :
    ((1 : Int) = 1 ∨ (1 : Int) = 2) ∧
    (∃ x : Nat, x < 4 ∧ ∃ y : Nat, y < 4 ∧ ∃ z : Nat,
      get_drop_position boardC2 (x : Int) (y : Int) = some z ∧
      wins_with_move boardC2 1 x y z) ∧
    (∃ x y z : Nat, (get_move boardC2 1 (0, 0, 0) timingW).1 = (x, y) ∧
      get_drop_position boardC2 (x : Int) (y : Int) = some z ∧
      wins_with_move boardC2 1 x y z) :=
  ⟨Or.inl rfl, ⟨1, by omega, 1, by omega, 3, by decide, by decide⟩,
    claim_C2 boardC2 1 (0, 0, 0) timingW (Or.inl rfl)
      ⟨1, by omega, 1, by omega, 3, by decide, by decide⟩⟩

theorem claim_C3_witness :
    ((1 : Int) = 1 ∨ (1 : Int) = 2) ∧
    (∀ x : Nat, x < 4 → ∀ y : Nat, y < 4 → ∀ z : Nat,
      get_drop_position boardC3 (x : Int) (y : Int) = some z →
      ¬ wins_with_move boardC3 1 x y z) ∧
    (∃ x : Nat, x < 4 ∧ ∃ y : Nat, y < 4 ∧ ∃ z : Nat,
      get_drop_position boardC3 (x : Int) (y : Int) = some z ∧
      wins_with_move boardC3 (3 - 1) x y z) ∧
    (∃ x y z : Nat, (get_move boardC3 1 (0, 0, 0) timingW).1 = (x, y) ∧
      get_drop_position boardC3 (x : Int) (y : Int) = some z ∧
      wins_with_move boardC3 (3 - 1) x y z) := by
  have hnowin : ∀ x : Nat, x < 4 → ∀ y : Nat, y < 4 → ∀ z : Nat,
      get_drop_position boardC3 (x : Int) (y : Int) = some z →
      ¬ wins_with_move boardC3 1 x y z := by
    intro x hx y hy z hz
    have hz4 : z < 4 := (gdp_nat_some hz).2.2.1
    revert hz
    interval_cases x <;> interval_cases y <;> interval_cases z <;> decide
  exact ⟨Or.inl rfl, hnowin,
    ⟨0, by omega, 0, by omega, 3, by decide, by decide⟩,
    claim_C3 boardC3 1 (0, 0, 0) timingW (Or.inl rfl) hnowin
      ⟨0, by omega, 0, by omega, 3, by decide, by decide⟩⟩

theorem claim_C6_witness :
    ((0 : Int) ≤ 1 ∧ (1 : Int) < 4 ∧ (0 : Int) ≤ 1 ∧ (1 : Int) < 4) ∧
    cellI boardC6 0 1 1 = 1 ∧ cellI boardC6 1 1 1 = 2 ∧
    cellI boardC6 2 1 1 = 1 ∧ cellI boardC6 3 1 1 = 0 ∧
    (get_drop_position boardC6 1 1 = some 3 ∧
      get_drop_position
        (setCellN boardC6 3 (1 : Int).toNat (1 : Int).toNat 2) 1 1 = none) :=
  ⟨by norm_num, by decide, by decide, by decide, by decide,
    (claim_C6 boardC6 1 1).2.2 (by norm_num) (by decide) (by decide)
      (by decide) (by decide)⟩

theorem claim_C7_witness :
    (∀ m : Nat × Nat, m ∈ get_ordered_moves boardC2 ↔
      (get_drop_position boardC2 (m.1 : Int) (m.2 : Int)).isSome = true) ∧
    (get_ordered_moves boardC2).Nodup ∧
    (∃ l1 l2 : List (Nat × Nat), get_ordered_moves boardC2 = l1 ++ l2 ∧
      (∀ m ∈ l1, m ∈ centerMoves) ∧ ∀ m ∈ l2, m ∉ centerMoves) :=
  claim_C7 boardC2

/-- The vertical line of column (0, 0), used in the C8 witness. -/
def lineW : Line := [(0,0,0), (0,0,1), (0,0,2), (0,0,3)]

theorem claim_C8_witness :
    ((2 : Int) = 1 ∨ (2 : Int) = 2) ∧
    (∀ c ∈ lineW, c.1 < 4 ∧ c.2.1 < 4 ∧ c.2.2 < 4) ∧
    (∀ c ∈ lineW, cellAt boardC3 c = 0 ∨ cellAt boardC3 c = 1 ∨
      cellAt boardC3 c = 2) ∧
    ((analyze_line_threats boardC3 lineW 2 (3 - 2)).immediate_threat = true ↔
      ((lineW.filter fun c => cellAt boardC3 c == 2).length = 3 ∧
       (lineW.filter fun c => cellAt boardC3 c == 3 - 2).length = 0 ∧
       ∃ e : Cell, (lineW.filter fun c => cellAt boardC3 c == 0) = [e] ∧
         get_drop_position boardC3 (e.1 : Int) (e.2.1 : Int) = some e.2.2)) :=
  ⟨Or.inr rfl, by decide, by decide,
    claim_C8 boardC3 lineW 2 (Or.inr rfl) (by decide) (by decide)⟩

theorem claim_C10_witness :
    (∀ z : Nat, z < 4 → ∀ y : Nat, y < 4 → ∀ x : Nat, x < 4 →
      cellN boardFull z y x ≠ 0) ∧
    (get_move boardFull 1 (0, 0, 0) timingW).1 = (0, 0) := by
  have hfull : ∀ z : Nat, z < 4 → ∀ y : Nat, y < 4 → ∀ x : Nat, x < 4 →
      cellN boardFull z y x ≠ 0 := by
    intro z hz y hy x hx
    interval_cases z <;> interval_cases y <;> interval_cases x <;> decide
  exact ⟨hfull, claim_C10 boardFull 1 (0, 0, 0) timingW hfull⟩
